import Mathlib

/-!
# libnoise selector and cellular modules: embedding and verification

Shallow embedding of `src/module/select.cpp`, `src/module/voronoi.cpp` and the inline
members of `src/module/blend.h`.

Modelling conventions.
* `double` values are exact rationals (`ℚ`): the properties stated here are the
  algebraic ones, rounding, NaN and infinities are outside the model.
* `int` values are integers (`ℤ`) kept in the 32-bit range: the result of every `int`
  addition, subtraction and increment is reduced by `wrapInt` (two's complement), and the
  conversion `(int)` of a `double` is `floorToInt`.
* A failed `assert` and a thrown `noise::ExceptionNoModule` are explicit
  results of type `Failure`.
* A local `double` that is declared without an initialiser is an `Option`
  that is `none` until the first assignment.
-/

namespace noise

/-- The two ways a call can fail: an `assert` that does not hold (the process
aborts), or the exception `noise::ExceptionNoModule` (which a caller can catch). -/
inductive Failure where
  | assertionFailed
  | exceptionNoModule
  deriving DecidableEq, Repr

/-- A source module seen through its only observable operation,
`GetValue (x, y, z)`. -/
abbrev Module := ℚ → ℚ → ℚ → ℚ

/-- Modelled from the spec: `SCurve3` of `interp.h`, which is not among the
sources; the cubic smoothstep `3t² - 2t³`, in the factored form `a * a * (3 - 2 * a)`. -/
def SCurve3 (a : ℚ) : ℚ := a * a * (3 - 2 * a)

/-- Modelled from the spec: `LinearInterp` of `interp.h`, which is not among the
sources; the linear interpolation between `n0` and `n1` with weight `a`. -/
def LinearInterp (n0 n1 a : ℚ) : ℚ := (1 - a) * n0 + a * n1

namespace module

/-! ## Select (`select.cpp`) -/

/-- State of a `Select` module: the three source slots (a null pointer is
`none`) and the three numeric members. -/
structure Select where
  m_pSourceModule : Fin 3 → Option Module
  m_lowerBound : ℚ
  m_upperBound : ℚ
  m_edgeFalloff : ℚ

/-- Embedding of `Select::GetValue` (select.cpp:38-93). -/
def Select.GetValue (s : Select) (x y z : ℚ) : Except Failure ℚ :=
  match s.m_pSourceModule 0 with
  | none => .error .assertionFailed
  | some m0 =>
    match s.m_pSourceModule 1 with
    | none => .error .assertionFailed
    | some m1 =>
      match s.m_pSourceModule 2 with
      | none => .error .assertionFailed
      | some m2 =>
        let controlValue := m2 x y z
        if s.m_edgeFalloff > 0 then
          if controlValue < s.m_lowerBound - s.m_edgeFalloff then
            .ok (m0 x y z)
          else if controlValue < s.m_lowerBound + s.m_edgeFalloff then
            let lowerCurve := s.m_lowerBound - s.m_edgeFalloff
            let upperCurve := s.m_lowerBound + s.m_edgeFalloff
            let alpha := SCurve3 ((controlValue - lowerCurve) / (upperCurve - lowerCurve))
            .ok (LinearInterp (m0 x y z) (m1 x y z) alpha)
          else if controlValue < s.m_upperBound - s.m_edgeFalloff then
            .ok (m1 x y z)
          else if controlValue < s.m_upperBound + s.m_edgeFalloff then
            let lowerCurve := s.m_upperBound - s.m_edgeFalloff
            let upperCurve := s.m_upperBound + s.m_edgeFalloff
            let alpha := SCurve3 ((controlValue - lowerCurve) / (upperCurve - lowerCurve))
            .ok (LinearInterp (m1 x y z) (m0 x y z) alpha)
          else
            .ok (m0 x y z)
        else
          if controlValue < s.m_lowerBound ∨ controlValue > s.m_upperBound then
            .ok (m0 x y z)
          else
            .ok (m1 x y z)

/-- Embedding of `Select::SetEdgeFalloff` (select.cpp:106-111). -/
def Select.SetEdgeFalloff (s : Select) (edgeFalloff : ℚ) : Select :=
  let boundSize := s.m_upperBound - s.m_lowerBound
  { s with m_edgeFalloff := if edgeFalloff > boundSize / 2 then boundSize / 2 else edgeFalloff }

/-- Embedding of `Select::SetBounds` (select.cpp:95-104).  The result is the
outcome of the call together with the state it leaves behind; when the
`assert` fails no member has been written. -/
def Select.SetBounds (s : Select) (lowerBound upperBound : ℚ) : Except Failure Unit × Select :=
  if lowerBound < upperBound then
    (.ok (), Select.SetEdgeFalloff
      { s with m_lowerBound := lowerBound, m_upperBound := upperBound } s.m_edgeFalloff)
  else
    (.error .assertionFailed, s)

/-- A `Select` whose three slots are bound to `m0`, `m1` and the control `m2`. -/
def Select.bound (m0 m1 m2 : Module) (lower upper falloff : ℚ) : Select :=
  { m_pSourceModule := fun i => if i = 0 then some m0 else if i = 1 then some m1 else some m2
    m_lowerBound := lower
    m_upperBound := upper
    m_edgeFalloff := falloff }

/-! ## Select: reachable states -/

/-- The non-overlap invariant of a `Select` state: ordered bounds, and the lower
transition band ends no later than the upper one starts. -/
def Select.Inv (s : Select) : Prop :=
  s.m_lowerBound < s.m_upperBound ∧
    s.m_lowerBound + s.m_edgeFalloff ≤ s.m_upperBound - s.m_edgeFalloff

/-- A call that changes the numeric members of a `Select`. -/
inductive SelectCall where
  | setBounds (lowerBound upperBound : ℚ)
  | setEdgeFalloff (edgeFalloff : ℚ)

/-- State after one call (a `SetBounds` whose check fails leaves the state as it was). -/
def Select.call (s : Select) : SelectCall → Select
  | .setBounds l u => (s.SetBounds l u).2
  | .setEdgeFalloff e => s.SetEdgeFalloff e

/-- State after a sequence of calls, first call first. -/
def Select.calls (s : Select) (cs : List SelectCall) : Select :=
  cs.foldl Select.call s

/-! ## Voronoi (`voronoi.cpp`) -/

/-- Declarations that `voronoi.cpp` uses and that are not among the sources.
`ValueNoise3D (x, y, z, seed)` is the lattice hash of `noisegen.h`; the last call of
`Voronoi::GetValue` passes three arguments only, so the declaration gives `seed` a default
value, `defaultSeed`.  `sqrt` is the C library function and `SQRT_3` the constant of
`mathconsts.h`. -/
structure Env where
  ValueNoise3D : ℤ → ℤ → ℤ → ℤ → ℚ
  defaultSeed : ℤ
  sqrt : ℚ → ℚ
  SQRT_3 : ℚ

/-- State of a `Voronoi` module.  `m_seed` is an `int`: the states of the program are those
with `m_seed` in the 32-bit range (`Voronoi.SeedInRange` also keeps `m_seed + 2` in it). -/
structure Voronoi where
  m_displacement : ℚ
  m_frequency : ℚ
  m_seed : ℤ
  m_enableDistance : Bool

/-- The locals that the search loop of `Voronoi::GetValue` updates: `minDist`, and
`xCandidate`, `yCandidate`, `zCandidate`, which have no initialiser and are assigned
together. -/
structure Nearest where
  minDist : ℚ
  candidate : Option (ℚ × ℚ × ℚ)
  deriving DecidableEq

/-- The value an `int` holds after a computation whose exact result is `n`: 32 bits, two's
complement (`INT_MIN = -2147483648`, `INT_MAX = 2147483647`). -/
def wrapInt (n : ℤ) : ℤ := (n + 2147483648) % 4294967296 - 2147483648

/-- The conversion `(int)(floor (x))`.  When the floor does not fit an `int` the result is
`INT_MIN`, the value the x86-64 conversion instruction gives for every such operand. -/
def floorToInt (x : ℚ) : ℤ :=
  if -2147483648 ≤ ⌊x⌋ ∧ ⌊x⌋ ≤ 2147483647 then ⌊x⌋ else -2147483648

/-- The integers from `lo` to `hi` in ascending order (empty when `hi < lo`). -/
def forRange (lo hi : ℤ) : List ℤ :=
  (List.range (hi + 1 - lo).toNat).map fun (k : ℕ) => lo + (k : ℤ)

/-- Runs `body` for the counter values of the list, in order; `none` as soon as one run of
the body does not return. -/
def iterate {σ : Type} (body : σ → ℤ → Option σ) : List ℤ → σ → Option σ
  | [], st => some st
  | i :: rest, st =>
    match body st i with
    | none => none
    | some st2 => iterate body rest st2

/-- The loop `for (int i = lo; i <= hi; i++) body`.  The counter takes the values `lo .. hi`;
when `hi` is `INT_MAX` and the loop is entered, `i++` wraps to `INT_MIN`, the test `i <= hi`
never fails and the loop does not return: the result is `none`. -/
def forInt {σ : Type} (lo hi : ℤ) (body : σ → ℤ → Option σ) (st : σ) : Option σ :=
  if lo ≤ hi ∧ hi = 2147483647 then none else iterate body (forRange lo hi) st

/-- Body of the innermost loop of `Voronoi::GetValue` (voronoi.cpp:63-80) for the cell
`(xCur, yCur, zCur)`; `x`, `y`, `z` is the scaled sample point. -/
def Voronoi.visit (env : Env) (seed : ℤ) (x y z : ℚ) (st : Nearest) (xCur yCur zCur : ℤ) :
    Nearest :=
  let xPos : ℚ := xCur + env.ValueNoise3D xCur yCur zCur seed
  let yPos : ℚ := yCur + env.ValueNoise3D xCur yCur zCur (wrapInt (seed + 1))
  let zPos : ℚ := zCur + env.ValueNoise3D xCur yCur zCur (wrapInt (seed + 2))
  let xDist := xPos - x
  let yDist := yPos - y
  let zDist := zPos - z
  let dist := xDist * xDist + yDist * yDist + zDist * zDist
  if dist < st.minDist then ⟨dist, some (xPos, yPos, zPos)⟩ else st

/-- The search of `Voronoi::GetValue` (voronoi.cpp:47-83) for the scaled point `(x, y, z)`:
three nested `int` loops from `xInt - radius` to `xInt + radius` (and the same for `y`, `z`),
`z` outermost and `x` innermost.  The code runs it with `radius = 2`.  The result is `none`
when a loop does not return. -/
def Voronoi.nearestSeed (env : Env) (seed : ℤ) (radius : ℤ) (x y z : ℚ) : Option Nearest :=
  let xInt : ℤ := floorToInt x
  let yInt : ℤ := floorToInt y
  let zInt : ℤ := floorToInt z
  forInt (wrapInt (zInt - radius)) (wrapInt (zInt + radius))
    (fun st zCur =>
      forInt (wrapInt (yInt - radius)) (wrapInt (yInt + radius))
        (fun st yCur =>
          forInt (wrapInt (xInt - radius)) (wrapInt (xInt + radius))
            (fun st xCur => some (Voronoi.visit env seed x y z st xCur yCur zCur)) st)
        st)
    ⟨2147483647, none⟩

/-- Embedding of `Voronoi::GetValue` (voronoi.cpp:38-102).  The result is `none` when the
call yields no defined value: the search does not return, or the candidate position is read
without ever having been assigned. -/
def Voronoi.GetValue (env : Env) (v : Voronoi) (x y z : ℚ) : Option ℚ :=
  let x := x * v.m_frequency
  let y := y * v.m_frequency
  let z := z * v.m_frequency
  match Voronoi.nearestSeed env v.m_seed 2 x y z with
  | none => none
  | some st =>
    match st.candidate with
    | none => none
    | some (xCandidate, yCandidate, zCandidate) =>
      let value :=
        if v.m_enableDistance then
          let xDist := xCandidate - x
          let yDist := yCandidate - y
          let zDist := zCandidate - z
          env.sqrt (xDist * xDist + yDist * yDist + zDist * zDist) * env.SQRT_3 - 1
        else 0
      some (value + v.m_displacement *
        env.ValueNoise3D (floorToInt xCandidate) (floorToInt yCandidate)
          (floorToInt zCandidate) env.defaultSeed)

/-! ## Voronoi: vocabulary of the properties -/

/-- Position of the seed point of a cell: `cell + hash (cell, seed + k)` on axis `k`, the
sums `seed + 1` and `seed + 2` being `int` sums. -/
def Voronoi.seedPos (env : Env) (seed : ℤ) (c : ℤ × ℤ × ℤ) : ℚ × ℚ × ℚ :=
  (c.1 + env.ValueNoise3D c.1 c.2.1 c.2.2 seed,
   c.2.1 + env.ValueNoise3D c.1 c.2.1 c.2.2 (wrapInt (seed + 1)),
   c.2.2 + env.ValueNoise3D c.1 c.2.1 c.2.2 (wrapInt (seed + 2)))

/-- Squared Euclidean distance from the position `p` to the point `(x, y, z)`. -/
def sqDist (x y z : ℚ) (p : ℚ × ℚ × ℚ) : ℚ :=
  (p.1 - x) * (p.1 - x) + (p.2.1 - y) * (p.2.1 - y) + (p.2.2 - z) * (p.2.2 - z)

/-- The cells at offsets `-radius .. +radius` per axis around the floor cell of `(x, y, z)`,
in scan order. -/
def Voronoi.cells (radius : ℤ) (x y z : ℚ) : List (ℤ × ℤ × ℤ) :=
  (forRange (⌊z⌋ - radius) (⌊z⌋ + radius)).flatMap fun zCur =>
    (forRange (⌊y⌋ - radius) (⌊y⌋ + radius)).flatMap fun yCur =>
      (forRange (⌊x⌋ - radius) (⌊x⌋ + radius)).map fun xCur => (xCur, yCur, zCur)

/-- The search loop run over an explicit list of cells from the state `st`. -/
def Voronoi.scan (env : Env) (seed : ℤ) (x y z : ℚ) (st : Nearest) (cs : List (ℤ × ℤ × ℤ)) :
    Nearest :=
  cs.foldl (fun st c => Voronoi.visit env seed x y z st c.1 c.2.1 c.2.2) st

/-- The state in which the scan of the block of the given radius ends, started from the
sentinel `2147483647` with no candidate. -/
def Voronoi.blockScan (env : Env) (seed : ℤ) (radius : ℤ) (x y z : ℚ) : Nearest :=
  Voronoi.scan env seed x y z ⟨2147483647, none⟩ (Voronoi.cells radius x y z)

/-- The floor cell of `(x, y, z)` is at least `margin` away from both ends of the `int`
range on every axis. -/
def Voronoi.PointInRange (margin : ℤ) (x y z : ℚ) : Prop :=
  (-2147483648 + margin ≤ ⌊x⌋ ∧ ⌊x⌋ + margin ≤ 2147483647) ∧
  (-2147483648 + margin ≤ ⌊y⌋ ∧ ⌊y⌋ + margin ≤ 2147483647) ∧
  (-2147483648 + margin ≤ ⌊z⌋ ∧ ⌊z⌋ + margin ≤ 2147483647)

/-- Every coordinate of the cell `c` is at least `margin` away from both ends of the `int`
range. -/
def Voronoi.CellInRange (margin : ℤ) (c : ℤ × ℤ × ℤ) : Prop :=
  (-2147483648 + margin ≤ c.1 ∧ c.1 + margin ≤ 2147483647) ∧
  (-2147483648 + margin ≤ c.2.1 ∧ c.2.1 + margin ≤ 2147483647) ∧
  (-2147483648 + margin ≤ c.2.2 ∧ c.2.2 + margin ≤ 2147483647)

/-- The seed is an `int` for which `seed + 1` and `seed + 2` do not overflow. -/
def Voronoi.SeedInRange (seed : ℤ) : Prop :=
  -2147483648 ≤ seed ∧ seed + 2 ≤ 2147483647

/-- The cell `c` lies at offsets `-2 .. +2` per axis from the floor cell of `(x, y, z)`. -/
def Voronoi.inBlock (x y z : ℚ) (c : ℤ × ℤ × ℤ) : Bool :=
  decide (⌊x⌋ - 2 ≤ c.1 ∧ c.1 ≤ ⌊x⌋ + 2) && (decide (⌊y⌋ - 2 ≤ c.2.1 ∧ c.2.1 ≤ ⌊y⌋ + 2) &&
    decide (⌊z⌋ - 2 ≤ c.2.2 ∧ c.2.2 ≤ ⌊z⌋ + 2))

/-- The distance term of the output for the winning seed position `w`: the rescaled
distance from the scaled sample point when distance is enabled, `0` otherwise. -/
def Voronoi.distanceTerm (env : Env) (v : Voronoi) (x y z : ℚ) (w : ℚ × ℚ × ℚ) : ℚ :=
  if v.m_enableDistance then
    env.sqrt (sqDist (x * v.m_frequency) (y * v.m_frequency) (z * v.m_frequency) w) * env.SQRT_3 - 1
  else 0

/-- The output as the specification words it: the distance term plus
`displacement * hash (floor (winning seed), seed)` with the configured seed of the module. -/
def Voronoi.valueWithConfiguredSeed (env : Env) (v : Voronoi) (x y z : ℚ) : Option ℚ :=
  match Voronoi.nearestSeed env v.m_seed 2 (x * v.m_frequency) (y * v.m_frequency)
      (z * v.m_frequency) with
  | none => none
  | some st =>
    match st.candidate with
    | none => none
    | some w =>
      some (Voronoi.distanceTerm env v x y z w +
        v.m_displacement * env.ValueNoise3D ⌊w.1⌋ ⌊w.2.1⌋ ⌊w.2.2⌋ v.m_seed)

/-- The lattice hash has all its values in `[lo, hi]`. -/
def Env.HashIn (env : Env) (lo hi : ℚ) : Prop :=
  ∀ x y z seed : ℤ, lo ≤ env.ValueNoise3D x y z seed ∧ env.ValueNoise3D x y z seed ≤ hi

/-- A hash that depends on the seed only: `0` for seed `0`, `1/2` for any other seed. -/
def seedOnlyHash (_x _y _z seed : ℤ) : ℚ := if seed = 0 then 0 else 1 / 2

/-- A hash with values in `[-1, 1]` that moves the seed of every cell away from the unit
cube at the origin, except the seed of cell `(3, 0, 0)`, which it moves next to it. -/
def pushOutHash (x y z seed : ℤ) : ℚ :=
  if x = 3 ∧ y = 0 ∧ z = 0 then (if seed = 0 then -1 else 1 / 2)
  else if 1 ≤ (if seed = 0 then x else if seed = 1 then y else z) then 1 else -1

/-- An environment around a given hash, with default seed `0`, a square root rounded
down to a multiple of `1 / den`, and `SQRT_3` to nineteen decimals. -/
def Env.ofHash (hash : ℤ → ℤ → ℤ → ℤ → ℚ) : Env :=
  { ValueNoise3D := hash
    defaultSeed := 0
    sqrt := fun q => (Nat.sqrt (q.num.toNat * q.den) : ℚ) / q.den
    SQRT_3 := 17320508075688772935 / 10000000000000000000 }

/-- A hash with values in `[-1, 1]` that moves the seed of every cell with `x = 0` out of
that cell (offset `-1/2` on each axis) and every other seed by `1/4`. -/
def leaveCellHash (x _y _z _seed : ℤ) : ℚ := if x = 0 then -1 / 2 else 1 / 4

/-- A `Select` with no source module bound. -/
def Select.unbound (lower upper falloff : ℚ) : Select :=
  { m_pSourceModule := fun _ => none
    m_lowerBound := lower
    m_upperBound := upper
    m_edgeFalloff := falloff }

/-- The calls that can be made on a `Select` which pass a falloff that is not negative. -/
def SelectCall.NonNeg : SelectCall → Prop
  | .setBounds _ _ => True
  | .setEdgeFalloff e => 0 ≤ e

/-! ## Blend (`blend.h`) -/

/-- State of a `Blend` module: the pointer to the slot array (a null pointer is `none`)
and, when the array exists, its three slots. -/
structure Blend where
  m_pSourceModule : Option (Fin 3 → Option Module)

/-- Embedding of `Blend::GetControlModule` (blend.h:71-77). -/
def Blend.GetControlModule (b : Blend) : Except Failure Module :=
  match b.m_pSourceModule with
  | none => .error .exceptionNoModule
  | some slots =>
    match slots 2 with
    | none => .error .exceptionNoModule
    | some m => .ok m

/-- Embedding of `Blend::GetSourceModuleCount` (blend.h:79-82). -/
def Blend.GetSourceModuleCount (_b : Blend) : ℤ := 3

/-- Embedding of `Blend::SetControlModule` (blend.h:104-108): the outcome of the call and
the state it leaves behind. -/
def Blend.SetControlModule (b : Blend) (controlModule : Module) : Except Failure Unit × Blend :=
  match b.m_pSourceModule with
  | none => (.error .assertionFailed, b)
  | some slots => (.ok (), { m_pSourceModule := some (Function.update slots 2 (some controlModule)) })

/-- Modelled from the spec: `SetSourceModule (index, node)` of the base class in
`modulebase.h`, which is not among the sources.  It binds slot `index` to `node`; an index
outside `0 ≤ index < arity` (so also any index when there is no slot array) is a programming
error that fails by assertion. -/
def Blend.SetSourceModule (b : Blend) (index : ℤ) (sourceModule : Module) :
    Except Failure Unit × Blend :=
  match b.m_pSourceModule with
  | none => (.error .assertionFailed, b)
  | some slots =>
    if h : 0 ≤ index ∧ index < b.GetSourceModuleCount then
      (.ok (), { m_pSourceModule := some (Function.update slots
        ⟨index.toNat, by
          have h2 : index < 3 := h.2
          omega⟩ (some sourceModule)) })
    else (.error .assertionFailed, b)

/-- Modelled from the spec: `Blend::GetValue`, which blend.h:84 only declares (its body is
in `blend.cpp`, not among the sources).  Every slot must be bound, checked by assertion; the
output is the linear interpolation between the values of source 0 and source 1 with the
control value, taken in `[-1, 1]`, rescaled linearly to a weight in `[0, 1]`. -/
def Blend.GetValue (b : Blend) (x y z : ℚ) : Except Failure ℚ :=
  match b.m_pSourceModule with
  | none => .error .assertionFailed
  | some slots =>
    match slots 0 with
    | none => .error .assertionFailed
    | some m0 =>
      match slots 1 with
      | none => .error .assertionFailed
      | some m1 =>
        match slots 2 with
        | none => .error .assertionFailed
        | some m2 =>
          let alpha := (m2 x y z + 1) / 2
          .ok (LinearInterp (m0 x y z) (m1 x y z) alpha)

/-- A `Blend` whose slot array exists and holds `m0`, `m1` and the control `m2`
(each possibly unbound). -/
def Blend.ofSlots (m0 m1 m2 : Option Module) : Blend :=
  { m_pSourceModule := some fun i => if i = 0 then m0 else if i = 1 then m1 else m2 }

/-! ## Select: evaluation -/

theorem Select.GetValue_bound (s : Select) (m0 m1 m2 : Module)
    (h0 : s.m_pSourceModule 0 = some m0) (h1 : s.m_pSourceModule 1 = some m1)
    (h2 : s.m_pSourceModule 2 = some m2) (x y z : ℚ) :
    s.GetValue x y z =
      (Select.bound m0 m1 m2 s.m_lowerBound s.m_upperBound s.m_edgeFalloff).GetValue x y z := by
  simp [Select.GetValue, Select.bound, h0, h1, h2]

/-- C1. With a stored edge falloff of zero, `Select::GetValue` is the step
function: the value of source 1 when the control value lies in
`[lowerBound, upperBound]` (both ends included), the value of source 0 otherwise. -/
theorem Select.GetValue_step (s : Select) (m0 m1 m2 : Module)
    (h0 : s.m_pSourceModule 0 = some m0) (h1 : s.m_pSourceModule 1 = some m1)
    (h2 : s.m_pSourceModule 2 = some m2) (he : s.m_edgeFalloff = 0) (x y z : ℚ) :
    s.GetValue x y z =
      .ok (if s.m_lowerBound ≤ m2 x y z ∧ m2 x y z ≤ s.m_upperBound then m1 x y z
        else m0 x y z) := by
  simp only [Select.GetValue, h0, h1, h2, he, gt_iff_lt, lt_irrefl, if_false]
  by_cases hin : s.m_lowerBound ≤ m2 x y z ∧ m2 x y z ≤ s.m_upperBound
  · have hn : ¬ (m2 x y z < s.m_lowerBound ∨ s.m_upperBound < m2 x y z) := by
      rintro (h | h)
      · exact absurd hin.1 (not_le.mpr h)
      · exact absurd hin.2 (not_le.mpr h)
    rw [if_neg hn, if_pos hin]
  · have hp : m2 x y z < s.m_lowerBound ∨ s.m_upperBound < m2 x y z := by
      by_contra hc
      push_neg at hc
      exact hin hc
    rw [if_pos hp, if_neg hin]

/-- Witness for C1: bounds `-1/2`, `1/2`, falloff `0`, sources constant `-1` and
`1`; control `0` gives `1`, control `9/10` gives `-1`. -/
theorem Select.GetValue_step_witness :
    (Select.bound (fun _ _ _ => -1) (fun _ _ _ => 1) (fun _ _ _ => 0) (-1/2) (1/2) 0).GetValue
        0 0 0 = .ok 1 ∧
    (Select.bound (fun _ _ _ => -1) (fun _ _ _ => 1) (fun _ _ _ => 9/10) (-1/2) (1/2) 0).GetValue
        0 0 0 = .ok (-1) := by
  constructor
  · rw [Select.GetValue_step _ (fun _ _ _ => -1) (fun _ _ _ => 1) (fun _ _ _ => 0) rfl rfl rfl rfl]
    norm_num [Select.bound]
  · rw [Select.GetValue_step _ (fun _ _ _ => -1) (fun _ _ _ => 1) (fun _ _ _ => 9/10)
      rfl rfl rfl rfl]
    norm_num [Select.bound]

/-- C2. With edge falloff `e > 0`, `Select::GetValue` interpolates in the two
transition bands.  For a control value `v` in `[lowerBound - e, lowerBound + e)` the
result is `(1 - w) * s0 + w * s1` with `w = 3t² - 2t³`, `t = (v - (lowerBound - e)) / (2e)`.
For `v` in `[upperBound - e, upperBound + e)` that is not in the lower band the result is
`(1 - w) * s1 + w * s0` with `t = (v - (upperBound - e)) / (2e)`, the endpoints reversed;
this holds for ordered bounds, and also for any bounds when `v` is not below the lower band. -/
theorem Select.GetValue_transition_bands (s : Select) (m0 m1 m2 : Module)
    (h0 : s.m_pSourceModule 0 = some m0) (h1 : s.m_pSourceModule 1 = some m1)
    (h2 : s.m_pSourceModule 2 = some m2) (he : 0 < s.m_edgeFalloff) (x y z : ℚ) :
    (s.m_lowerBound - s.m_edgeFalloff ≤ m2 x y z →
      m2 x y z < s.m_lowerBound + s.m_edgeFalloff →
      s.GetValue x y z =
        .ok ((1 - (3 * ((m2 x y z - (s.m_lowerBound - s.m_edgeFalloff)) / (2 * s.m_edgeFalloff)) ^ 2
                - 2 * ((m2 x y z - (s.m_lowerBound - s.m_edgeFalloff)) / (2 * s.m_edgeFalloff)) ^ 3))
              * m0 x y z
            + (3 * ((m2 x y z - (s.m_lowerBound - s.m_edgeFalloff)) / (2 * s.m_edgeFalloff)) ^ 2
                - 2 * ((m2 x y z - (s.m_lowerBound - s.m_edgeFalloff)) / (2 * s.m_edgeFalloff)) ^ 3)
              * m1 x y z)) ∧
    (s.m_upperBound - s.m_edgeFalloff ≤ m2 x y z →
      m2 x y z < s.m_upperBound + s.m_edgeFalloff →
      ¬ (s.m_lowerBound - s.m_edgeFalloff ≤ m2 x y z ∧
          m2 x y z < s.m_lowerBound + s.m_edgeFalloff) →
      (s.m_lowerBound < s.m_upperBound ∨ ¬ (m2 x y z < s.m_lowerBound - s.m_edgeFalloff)) →
      s.GetValue x y z =
        .ok ((1 - (3 * ((m2 x y z - (s.m_upperBound - s.m_edgeFalloff)) / (2 * s.m_edgeFalloff)) ^ 2
                - 2 * ((m2 x y z - (s.m_upperBound - s.m_edgeFalloff)) / (2 * s.m_edgeFalloff)) ^ 3))
              * m1 x y z
            + (3 * ((m2 x y z - (s.m_upperBound - s.m_edgeFalloff)) / (2 * s.m_edgeFalloff)) ^ 2
                - 2 * ((m2 x y z - (s.m_upperBound - s.m_edgeFalloff)) / (2 * s.m_edgeFalloff)) ^ 3)
              * m0 x y z)) := by
  have hw : ∀ b : ℚ, (b + s.m_edgeFalloff) - (b - s.m_edgeFalloff) = 2 * s.m_edgeFalloff := by
    intro b; ring
  have hs : ∀ t : ℚ, SCurve3 t = 3 * t ^ 2 - 2 * t ^ 3 := by
    intro t; unfold SCurve3; ring
  refine ⟨fun hlo hhi => ?_, fun hlo hhi hnot hord => ?_⟩
  · simp only [Select.GetValue, h0, h1, h2, gt_iff_lt, he, if_true, not_lt.mpr hlo, if_false,
      hhi, LinearInterp, hw, hs]
  · have hge : s.m_lowerBound - s.m_edgeFalloff ≤ m2 x y z := by
      rcases hord with hord | hord
      · linarith
      · exact not_lt.mp hord
    have hge2 : ¬ (m2 x y z < s.m_lowerBound + s.m_edgeFalloff) := fun h => hnot ⟨hge, h⟩
    simp only [Select.GetValue, h0, h1, h2, gt_iff_lt, he, if_true, not_lt.mpr hge, if_false,
      hge2, not_lt.mpr hlo, hhi, LinearInterp, hw, hs]

/-- Witness for C2: bounds `-1/2`, `1/2`, falloff `1/4`, sources constant `-1` and `1`.
Control `-1/2` (middle of the lower band, `t = 1/2`, `w = 1/2`) gives `0`; control `5/8`
(upper band, `t = 3/4`, `w = 27/32`) gives `-11/16`. -/
theorem Select.GetValue_transition_bands_witness :
    (Select.bound (fun _ _ _ => -1) (fun _ _ _ => 1) (fun _ _ _ => -1/2) (-1/2) (1/2)
        (1/4)).GetValue 0 0 0 = .ok 0 ∧
    (Select.bound (fun _ _ _ => -1) (fun _ _ _ => 1) (fun _ _ _ => 5/8) (-1/2) (1/2)
        (1/4)).GetValue 0 0 0 = .ok (-11/16) := by
  constructor
  · rw [(Select.GetValue_transition_bands _ (fun _ _ _ => -1) (fun _ _ _ => 1)
      (fun _ _ _ => -1/2) rfl rfl rfl (by norm_num [Select.bound]) 0 0 0).1
      (by norm_num [Select.bound]) (by norm_num [Select.bound])]
    norm_num [Select.bound]
  · rw [(Select.GetValue_transition_bands _ (fun _ _ _ => -1) (fun _ _ _ => 1)
      (fun _ _ _ => 5/8) rfl rfl rfl (by norm_num [Select.bound]) 0 0 0).2
      (by norm_num [Select.bound]) (by norm_num [Select.bound]) (by norm_num [Select.bound])
      (Or.inl (by norm_num [Select.bound]))]
    norm_num [Select.bound]

/-- C3. With edge falloff `e > 0`, `Select::GetValue` returns a source unchanged in the
three flat zones: source 0 when `v < lowerBound - e`, source 1 when
`lowerBound + e ≤ v < upperBound - e`, and source 0 when `v ≥ upperBound + e` (the last
for a state with ordered bounds, as `SetBounds` enforces). -/
theorem Select.GetValue_flat_zones (s : Select) (m0 m1 m2 : Module)
    (h0 : s.m_pSourceModule 0 = some m0) (h1 : s.m_pSourceModule 1 = some m1)
    (h2 : s.m_pSourceModule 2 = some m2) (he : 0 < s.m_edgeFalloff) (x y z : ℚ) :
    (m2 x y z < s.m_lowerBound - s.m_edgeFalloff → s.GetValue x y z = .ok (m0 x y z)) ∧
    (s.m_lowerBound + s.m_edgeFalloff ≤ m2 x y z →
      m2 x y z < s.m_upperBound - s.m_edgeFalloff → s.GetValue x y z = .ok (m1 x y z)) ∧
    (s.m_lowerBound < s.m_upperBound →
      s.m_upperBound + s.m_edgeFalloff ≤ m2 x y z → s.GetValue x y z = .ok (m0 x y z)) := by
  refine ⟨fun h => ?_, fun hlo hhi => ?_, fun hord hge => ?_⟩
  · simp only [Select.GetValue, h0, h1, h2, gt_iff_lt, he, if_true, h]
  · have a1 : ¬ (m2 x y z < s.m_lowerBound - s.m_edgeFalloff) := by
      rw [not_lt]; linarith
    simp only [Select.GetValue, h0, h1, h2, gt_iff_lt, he, if_true, a1, if_false,
      not_lt.mpr hlo, hhi]
  · have a1 : ¬ (m2 x y z < s.m_lowerBound - s.m_edgeFalloff) := by
      rw [not_lt]; linarith
    have a2 : ¬ (m2 x y z < s.m_lowerBound + s.m_edgeFalloff) := by
      rw [not_lt]; linarith
    have a3 : ¬ (m2 x y z < s.m_upperBound - s.m_edgeFalloff) := by
      rw [not_lt]; linarith
    simp only [Select.GetValue, h0, h1, h2, gt_iff_lt, he, if_true, a1, if_false, a2, a3,
      not_lt.mpr hge]

/-- Witness for C3: bounds `-1/2`, `1/2`, falloff `1/4`, sources constant `-1` and `1`;
controls `-1`, `0` and `3/4` give `-1`, `1` and `-1`. -/
theorem Select.GetValue_flat_zones_witness :
    (Select.bound (fun _ _ _ => -1) (fun _ _ _ => 1) (fun _ _ _ => -1) (-1/2) (1/2)
        (1/4)).GetValue 0 0 0 = .ok (-1) ∧
    (Select.bound (fun _ _ _ => -1) (fun _ _ _ => 1) (fun _ _ _ => 0) (-1/2) (1/2)
        (1/4)).GetValue 0 0 0 = .ok 1 ∧
    (Select.bound (fun _ _ _ => -1) (fun _ _ _ => 1) (fun _ _ _ => 3/4) (-1/2) (1/2)
        (1/4)).GetValue 0 0 0 = .ok (-1) := by
  refine ⟨?_, ?_, ?_⟩
  · exact (Select.GetValue_flat_zones _ (fun _ _ _ => -1) (fun _ _ _ => 1)
      (fun _ _ _ => -1) rfl rfl rfl (by norm_num [Select.bound]) 0 0 0).1
      (by norm_num [Select.bound])
  · exact (Select.GetValue_flat_zones _ (fun _ _ _ => -1) (fun _ _ _ => 1)
      (fun _ _ _ => 0) rfl rfl rfl (by norm_num [Select.bound]) 0 0 0).2.1
      (by norm_num [Select.bound]) (by norm_num [Select.bound])
  · exact (Select.GetValue_flat_zones _ (fun _ _ _ => -1) (fun _ _ _ => 1)
      (fun _ _ _ => 3/4) rfl rfl rfl (by norm_num [Select.bound]) 0 0 0).2.2
      (by norm_num [Select.bound]) (by norm_num [Select.bound])

theorem continuous_if_lt_const (a : ℚ) (A B : ℚ → ℚ) (hA : Continuous A) (hB : Continuous B)
    (h : A a = B a) : Continuous (fun v => if v < a then A v else B v) := by
  have hswap : (fun v => if v < a then A v else B v) = fun v => if a ≤ v then B v else A v := by
    funext v
    by_cases hv : v < a
    · rw [if_pos hv, if_neg (not_le.mpr hv)]
    · rw [if_neg hv, if_pos (not_lt.mp hv)]
  rw [hswap]
  refine Continuous.if_le hB hA continuous_const continuous_id ?_
  intro v hv
  have hva : v = a := hv.symm
  rw [hva]
  exact h.symm

/-- C4. Zone continuity of `Select::GetValue`.  For `lowerBound < upperBound` and
`0 < e ≤ (upperBound - lowerBound) / 2` and fixed source values `s0`, `s1`, the output is a
continuous function `f` of the control value; at the four zone boundaries it takes the
values `f (lowerBound - e) = s0`, `f (lowerBound + e) = s1`, `f (upperBound - e) = s1`,
`f (upperBound + e) = s0`, and these are the values of the band interpolations at `t = 0`
and `t = 1` (lower band `s0`, `s1`; upper band `s1`, `s0`). -/
theorem Select.GetValue_zone_continuity (lb ub e s0 s1 : ℚ) (_hlt : lb < ub) (he0 : 0 < e)
    (he : e ≤ (ub - lb) / 2) :
    ∃ f : ℚ → ℚ,
      (∀ (s : Select) (m0 m1 m2 : Module) (x y z : ℚ),
        s.m_pSourceModule 0 = some m0 → s.m_pSourceModule 1 = some m1 →
        s.m_pSourceModule 2 = some m2 →
        s.m_lowerBound = lb → s.m_upperBound = ub → s.m_edgeFalloff = e →
        m0 x y z = s0 → m1 x y z = s1 →
        s.GetValue x y z = .ok (f (m2 x y z))) ∧
      Continuous f ∧
      f (lb - e) = s0 ∧ f (lb + e) = s1 ∧ f (ub - e) = s1 ∧ f (ub + e) = s0 ∧
      LinearInterp s0 s1 (SCurve3 0) = s0 ∧ LinearInterp s0 s1 (SCurve3 1) = s1 ∧
      LinearInterp s1 s0 (SCurve3 0) = s1 ∧ LinearInterp s1 s0 (SCurve3 1) = s0 := by
  have hw : ∀ b : ℚ, (b + e) - (b - e) = 2 * e := by
    intro b; ring
  have h2e : (2 * e) ≠ 0 := by positivity
  have hS0 : SCurve3 0 = 0 := by norm_num [SCurve3]
  have hS1 : SCurve3 1 = 1 := by norm_num [SCurve3]
  have hS : Continuous SCurve3 := by
    unfold SCurve3
    fun_prop
  have hL : ∀ a b c : ℚ, Continuous fun v => LinearInterp a b (SCurve3 ((v - c) / (2 * e))) := by
    intro a b c
    have hin : Continuous fun v : ℚ => SCurve3 ((v - c) / (2 * e)) :=
      hS.comp ((continuous_id.sub continuous_const).div_const _)
    unfold LinearInterp
    exact ((continuous_const.sub hin).mul continuous_const).add (hin.mul continuous_const)
  refine ⟨fun v =>
      if v < lb - e then s0
      else if v < lb + e then LinearInterp s0 s1 (SCurve3 ((v - (lb - e)) / (2 * e)))
      else if v < ub - e then s1
      else if v < ub + e then LinearInterp s1 s0 (SCurve3 ((v - (ub - e)) / (2 * e)))
      else s0, ?_, ?_, ?_, ?_, ?_, ?_, ?_, ?_, ?_, ?_⟩
  · intro s m0 m1 m2 x y z h0 h1 h2 hlb hub hfe hs0 hs1
    simp only [Select.GetValue, h0, h1, h2, hlb, hub, hfe, hs0, hs1, gt_iff_lt, he0, if_true, hw]
    split_ifs <;> rfl
  · refine continuous_if_lt_const _ _ _ continuous_const ?_ ?_
    · refine continuous_if_lt_const _ _ _ (hL _ _ _) ?_ ?_
      · refine continuous_if_lt_const _ _ _ continuous_const ?_ ?_
        · refine continuous_if_lt_const _ _ _ (hL _ _ _) continuous_const ?_
          have : (ub + e - (ub - e)) / (2 * e) = 1 := by
            rw [hw]; exact div_self h2e
          rw [this, hS1]
          norm_num [LinearInterp]
        · have h1 : ub - e < ub + e := by linarith
          rw [if_pos h1, sub_self, zero_div, hS0]
          norm_num [LinearInterp]
      · have : (lb + e - (lb - e)) / (2 * e) = 1 := by
          rw [hw]; exact div_self h2e
        rw [this, hS1]
        by_cases hmid : lb + e < ub - e
        · rw [if_pos hmid]
          norm_num [LinearInterp]
        · have heq : lb + e = ub - e := by linarith
          have h1 : lb + e < ub + e := by linarith
          rw [if_neg hmid, if_pos h1, heq, sub_self, zero_div, hS0]
          norm_num [LinearInterp]
    · have h1 : lb - e < lb + e := by linarith
      rw [if_pos h1, sub_self, zero_div, hS0]
      norm_num [LinearInterp]
  · have h1 : lb - e < lb + e := by linarith
    simp only [lt_irrefl, if_false, h1, if_true, sub_self, zero_div, hS0]
    norm_num [LinearInterp]
  · have a1 : ¬ (lb + e < lb - e) := by rw [not_lt]; linarith
    have : (lb + e - (lb - e)) / (2 * e) = 1 := by
      rw [hw]; exact div_self h2e
    simp only [a1, lt_irrefl, if_false]
    by_cases hmid : lb + e < ub - e
    · rw [if_pos hmid]
    · have heq : lb + e = ub - e := by linarith
      have h1 : lb + e < ub + e := by linarith
      rw [if_neg hmid, if_pos h1, heq, sub_self, zero_div, hS0]
      norm_num [LinearInterp]
  · have a1 : ¬ (ub - e < lb - e) := by rw [not_lt]; linarith
    have a2 : ¬ (ub - e < lb + e) := by rw [not_lt]; linarith
    have h1 : ub - e < ub + e := by linarith
    simp only [a1, a2, lt_irrefl, if_false, h1, if_true, sub_self, zero_div, hS0]
    norm_num [LinearInterp]
  · have a1 : ¬ (ub + e < lb - e) := by rw [not_lt]; linarith
    have a2 : ¬ (ub + e < lb + e) := by rw [not_lt]; linarith
    have a3 : ¬ (ub + e < ub - e) := by rw [not_lt]; linarith
    simp only [a1, a2, a3, lt_irrefl, if_false]
  · rw [hS0]; norm_num [LinearInterp]
  · rw [hS1]; norm_num [LinearInterp]
  · rw [hS0]; norm_num [LinearInterp]
  · rw [hS1]; norm_num [LinearInterp]

/-- Witness for C4: bounds `-1/2`, `1/2` and falloff `1/2` (half the span, so the middle
flat zone is empty), sources constant `-1` and `1`: the output is a continuous function of
the control value with values `-1`, `1`, `-1` at the boundaries `-1`, `0`, `1`. -/
theorem Select.GetValue_zone_continuity_witness :
    ∃ f : ℚ → ℚ, Continuous f ∧ f (-1) = -1 ∧ f 0 = 1 ∧ f 1 = -1 ∧
      ∀ v : ℚ, (Select.bound (fun _ _ _ => -1) (fun _ _ _ => 1) (fun _ _ _ => v) (-1/2) (1/2)
        (1/2)).GetValue 0 0 0 = .ok (f v) := by
  obtain ⟨f, hf, hc, ha, hb, _, hd, _⟩ :=
    Select.GetValue_zone_continuity (-1/2) (1/2) (1/2) (-1) 1 (by norm_num) (by norm_num)
      (by norm_num)
  refine ⟨f, hc, ?_, ?_, ?_, ?_⟩
  · have h : (-1 / 2 - 1 / 2 : ℚ) = -1 := by norm_num
    rw [h] at ha; exact ha
  · have h : (-1 / 2 + 1 / 2 : ℚ) = 0 := by norm_num
    rw [h] at hb; exact hb
  · have h : (1 / 2 + 1 / 2 : ℚ) = 1 := by norm_num
    rw [h] at hd; exact hd
  · intro v
    exact hf _ (fun _ _ _ => -1) (fun _ _ _ => 1) (fun _ _ _ => v) 0 0 0 rfl rfl rfl rfl rfl rfl
      rfl rfl

/-! ## Select: the setters -/

theorem Select.SetEdgeFalloff_le_half (s : Select) (v : ℚ) :
    (s.SetEdgeFalloff v).m_edgeFalloff ≤ (s.m_upperBound - s.m_lowerBound) / 2 := by
  simp only [Select.SetEdgeFalloff]
  split_ifs with h
  · exact le_refl _
  · exact not_lt.mp h

theorem Select.SetEdgeFalloff_inv (s : Select) (v : ℚ) (hlt : s.m_lowerBound < s.m_upperBound) :
    (s.SetEdgeFalloff v).Inv := by
  have h := Select.SetEdgeFalloff_le_half s v
  refine ⟨hlt, ?_⟩
  have hl : (s.SetEdgeFalloff v).m_lowerBound = s.m_lowerBound := rfl
  have hu : (s.SetEdgeFalloff v).m_upperBound = s.m_upperBound := rfl
  rw [hl, hu]
  linarith

theorem Select.SetBounds_inv (s : Select) (l u : ℚ) (hok : (s.SetBounds l u).1 = .ok ()) :
    (s.SetBounds l u).2.Inv := by
  unfold Select.SetBounds at hok ⊢
  by_cases hlu : l < u
  · rw [if_pos hlu]
    exact Select.SetEdgeFalloff_inv _ _ hlu
  · rw [if_neg hlu] at hok
    exact absurd hok (by simp)

theorem Select.call_inv (s : Select) (c : SelectCall) (h : s.Inv) : (s.call c).Inv := by
  cases c with
  | setBounds l u =>
    show (s.SetBounds l u).2.Inv
    by_cases hlu : l < u
    · exact Select.SetBounds_inv s l u (by simp [Select.SetBounds, hlu])
    · simpa [Select.SetBounds, hlu] using h
  | setEdgeFalloff e => exact Select.SetEdgeFalloff_inv s e h.1

/-- C5. `Select::SetEdgeFalloff (v)` stores half the span `(upperBound - lowerBound) / 2`
when `v` exceeds it and `v` otherwise; the stored falloff never exceeds half the span, and
the bounds and the source slots are unchanged. -/
theorem Select.SetEdgeFalloff_clamp (s : Select) (v : ℚ) :
    ((s.m_upperBound - s.m_lowerBound) / 2 < v →
      (s.SetEdgeFalloff v).m_edgeFalloff = (s.m_upperBound - s.m_lowerBound) / 2) ∧
    (¬ (s.m_upperBound - s.m_lowerBound) / 2 < v → (s.SetEdgeFalloff v).m_edgeFalloff = v) ∧
    (s.SetEdgeFalloff v).m_edgeFalloff ≤ (s.m_upperBound - s.m_lowerBound) / 2 ∧
    (s.SetEdgeFalloff v).m_lowerBound = s.m_lowerBound ∧
    (s.SetEdgeFalloff v).m_upperBound = s.m_upperBound ∧
    (s.SetEdgeFalloff v).m_pSourceModule = s.m_pSourceModule := by
  refine ⟨fun h => ?_, fun h => ?_, Select.SetEdgeFalloff_le_half s v, rfl, rfl, rfl⟩
  · simp only [Select.SetEdgeFalloff, gt_iff_lt, h, if_true]
  · simp only [Select.SetEdgeFalloff, gt_iff_lt, h, if_false]

/-- Witness for C5: with bounds `-1`, `1` (half span `1`), `SetEdgeFalloff (5)` stores `1`
and `SetEdgeFalloff (1/4)` stores `1/4`. -/
theorem Select.SetEdgeFalloff_clamp_witness :
    ((Select.bound (fun _ _ _ => 0) (fun _ _ _ => 0) (fun _ _ _ => 0) (-1) 1 0).SetEdgeFalloff
        5).m_edgeFalloff = 1 ∧
    ((Select.bound (fun _ _ _ => 0) (fun _ _ _ => 0) (fun _ _ _ => 0) (-1) 1 0).SetEdgeFalloff
        (1 / 4)).m_edgeFalloff = 1 / 4 := by
  constructor
  · rw [(Select.SetEdgeFalloff_clamp _ 5).1 (by norm_num [Select.bound])]
    norm_num [Select.bound]
  · exact (Select.SetEdgeFalloff_clamp _ (1 / 4)).2.1 (by norm_num [Select.bound])

/-- C6. `Select::SetBounds (lower, upper)`: when `lower < upper` the call succeeds, stores
both bounds and leaves the falloff at `min (previous falloff) ((upper - lower) / 2)`; when
`lower ≥ upper` the check fails and the state (bounds, falloff, slots) is the one before
the call. -/
theorem Select.SetBounds_spec (s : Select) (lower upper : ℚ) :
    (lower < upper →
      (s.SetBounds lower upper).1 = .ok () ∧
      (s.SetBounds lower upper).2.m_lowerBound = lower ∧
      (s.SetBounds lower upper).2.m_upperBound = upper ∧
      (s.SetBounds lower upper).2.m_edgeFalloff = min s.m_edgeFalloff ((upper - lower) / 2) ∧
      (s.SetBounds lower upper).2.m_pSourceModule = s.m_pSourceModule) ∧
    (upper ≤ lower →
      (s.SetBounds lower upper).1 = .error .assertionFailed ∧
      (s.SetBounds lower upper).2 = s) := by
  refine ⟨fun h => ?_, fun h => ?_⟩
  · simp only [Select.SetBounds, h, if_true, Select.SetEdgeFalloff, gt_iff_lt, true_and]
    split_ifs with hc
    · exact ⟨(min_eq_right (le_of_lt hc)).symm, trivial⟩
    · exact ⟨(min_eq_left (not_lt.mp hc)).symm, trivial⟩
  · simp only [Select.SetBounds, not_lt.mpr h, if_false, and_self]

/-- Witness for C6: on the state with bounds `-1`, `1` and falloff `3/4`, `SetBounds (0, 1)`
succeeds with falloff `1/2`, and `SetBounds (1, 0)` fails and keeps the state. -/
theorem Select.SetBounds_spec_witness :
    ((Select.bound (fun _ _ _ => 0) (fun _ _ _ => 0) (fun _ _ _ => 0) (-1) 1 (3/4)).SetBounds
        0 1).2.m_edgeFalloff = 1/2 ∧
    ((Select.bound (fun _ _ _ => 0) (fun _ _ _ => 0) (fun _ _ _ => 0) (-1) 1 (3/4)).SetBounds
        1 0) = (.error .assertionFailed,
          Select.bound (fun _ _ _ => 0) (fun _ _ _ => 0) (fun _ _ _ => 0) (-1) 1 (3/4)) := by
  constructor
  · rw [((Select.SetBounds_spec _ 0 1).1 (by norm_num)).2.2.2.1]
    norm_num [Select.bound]
  · exact Prod.ext ((Select.SetBounds_spec _ 1 0).2 (by norm_num)).1
      ((Select.SetBounds_spec _ 1 0).2 (by norm_num)).2

/-- C7. The state invariant `lowerBound < upperBound ∧ lowerBound + edgeFalloff ≤
upperBound - edgeFalloff` is preserved by every successful `SetBounds`, by every
`SetEdgeFalloff`, and so holds after any sequence of such calls from a state that has it. -/
theorem Select.Inv_preserved (s : Select) (h : s.Inv) :
    (∀ l u : ℚ, (s.SetBounds l u).1 = .ok () → (s.SetBounds l u).2.Inv) ∧
    (∀ v : ℚ, (s.SetEdgeFalloff v).Inv) ∧
    (∀ cs : List SelectCall, (s.calls cs).Inv) := by
  refine ⟨fun l u hok => Select.SetBounds_inv s l u hok,
    fun v => Select.SetEdgeFalloff_inv s v h.1, fun cs => ?_⟩
  unfold Select.calls
  induction cs generalizing s with
  | nil => exact h
  | cons c cs ih => exact ih (s.call c) (Select.call_inv s c h)

/-- Witness for C7: from bounds `-1`, `1` with falloff `0`, the calls `SetEdgeFalloff (5)`,
`SetBounds (0, 1/2)`, `SetBounds (3, 2)` (rejected), `SetEdgeFalloff (-1)` end in a state
with the invariant. -/
theorem Select.Inv_preserved_witness :
    ((Select.bound (fun _ _ _ => 0) (fun _ _ _ => 0) (fun _ _ _ => 0) (-1) 1 0).calls
      [.setEdgeFalloff 5, .setBounds 0 (1/2), .setBounds 3 2, .setEdgeFalloff (-1)]).Inv :=
  (Select.Inv_preserved (Select.bound (fun _ _ _ => 0) (fun _ _ _ => 0) (fun _ _ _ => 0) (-1) 1 0)
    (by norm_num [Select.Inv, Select.bound])).2.2 _

/-! ## Voronoi: the search loop -/

theorem mem_forRange (lo hi a : ℤ) : a ∈ forRange lo hi ↔ lo ≤ a ∧ a ≤ hi := by
  unfold forRange
  rw [List.mem_map]
  constructor
  · rintro ⟨k, hk, rfl⟩
    rw [List.mem_range] at hk
    omega
  · rintro ⟨h1, h2⟩
    refine ⟨(a - lo).toNat, ?_, ?_⟩
    · rw [List.mem_range]; omega
    · omega

theorem mem_cells (r : ℤ) (x y z : ℚ) (c : ℤ × ℤ × ℤ) :
    c ∈ Voronoi.cells r x y z ↔
      (⌊x⌋ - r ≤ c.1 ∧ c.1 ≤ ⌊x⌋ + r) ∧ (⌊y⌋ - r ≤ c.2.1 ∧ c.2.1 ≤ ⌊y⌋ + r) ∧
        (⌊z⌋ - r ≤ c.2.2 ∧ c.2.2 ≤ ⌊z⌋ + r) := by
  obtain ⟨cx, cy, cz⟩ := c
  simp only [Voronoi.cells, List.mem_flatMap, List.mem_map, mem_forRange, Prod.mk.injEq]
  constructor
  · rintro ⟨zc, hz, yc, hy, xc, hx, rfl, rfl, rfl⟩
    exact ⟨hx, hy, hz⟩
  · rintro ⟨hx, hy, hz⟩
    exact ⟨cz, hz, cy, hy, cx, hx, rfl, rfl, rfl⟩

theorem foldl_flatMap_eq {α β γ : Type} (f : γ → β → γ) (g : α → List β) (l : List α) (a : γ) :
    (l.flatMap g).foldl f a = l.foldl (fun acc x => (g x).foldl f acc) a := by
  induction l generalizing a with
  | nil => rfl
  | cons x xs ih => rw [List.flatMap_cons, List.foldl_append, ih, List.foldl_cons]

theorem wrapInt_of_range (n : ℤ) (h1 : -2147483648 ≤ n) (h2 : n ≤ 2147483647) :
    wrapInt n = n := by
  unfold wrapInt
  omega

theorem floorToInt_of_range (x : ℚ) (h1 : -2147483648 ≤ ⌊x⌋) (h2 : ⌊x⌋ ≤ 2147483647) :
    floorToInt x = ⌊x⌋ := by
  unfold floorToInt
  rw [if_pos ⟨h1, h2⟩]

theorem iterate_some {σ : Type} (f : σ → ℤ → σ) (l : List ℤ) (st : σ) :
    iterate (fun s i => some (f s i)) l st = some (l.foldl f st) := by
  induction l generalizing st with
  | nil => rfl
  | cons i rest ih =>
    simp only [iterate, List.foldl_cons]
    exact ih _

theorem forInt_some {σ : Type} (lo hi : ℤ) (hhi : hi < 2147483647) (f : σ → ℤ → σ) (st : σ) :
    forInt lo hi (fun s i => some (f s i)) st = some ((forRange lo hi).foldl f st) := by
  unfold forInt
  rw [if_neg (by omega), iterate_some]

theorem forRange_empty (lo hi : ℤ) (h : hi < lo) : forRange lo hi = [] := by
  unfold forRange
  have : (hi + 1 - lo).toNat = 0 := by omega
  rw [this]
  rfl

theorem forInt_empty {σ : Type} (lo hi : ℤ) (h : hi < lo) (body : σ → ℤ → Option σ) (st : σ) :
    forInt lo hi body st = some st := by
  unfold forInt
  rw [if_neg (by omega), forRange_empty lo hi h]
  rfl

theorem iterate_id {σ : Type} (body : σ → ℤ → Option σ) (hb : ∀ s i, body s i = some s)
    (l : List ℤ) (st : σ) : iterate body l st = some st := by
  induction l with
  | nil => rfl
  | cons i rest ih => simp only [iterate, hb, ih]

theorem forInt_id {σ : Type} (lo hi : ℤ) (hhi : hi < 2147483647) (body : σ → ℤ → Option σ)
    (hb : ∀ s i, body s i = some s) (st : σ) : forInt lo hi body st = some st := by
  unfold forInt
  rw [if_neg (by omega), iterate_id body hb]

theorem Voronoi.blockScan_eq_scan (env : Env) (seed r : ℤ) (x y z : ℚ) :
    Voronoi.blockScan env seed r x y z =
      Voronoi.scan env seed x y z ⟨2147483647, none⟩ (Voronoi.cells r x y z) := rfl

/-- Inside the `int` range the three nested loops return, and end in the state of the scan
of the block around the floor cell. -/
theorem Voronoi.nearestSeed_eq_blockScan (env : Env) (seed r : ℤ) (x y z : ℚ) (hr : 0 ≤ r)
    (hp : Voronoi.PointInRange (r + 1) x y z) :
    Voronoi.nearestSeed env seed r x y z = some (Voronoi.blockScan env seed r x y z) := by
  obtain ⟨⟨hx1, hx2⟩, ⟨hy1, hy2⟩, ⟨hz1, hz2⟩⟩ := hp
  have fx := floorToInt_of_range x (by omega) (by omega)
  have fy := floorToInt_of_range y (by omega) (by omega)
  have fz := floorToInt_of_range z (by omega) (by omega)
  have wx1 := wrapInt_of_range (⌊x⌋ - r) (by omega) (by omega)
  have wx2 := wrapInt_of_range (⌊x⌋ + r) (by omega) (by omega)
  have wy1 := wrapInt_of_range (⌊y⌋ - r) (by omega) (by omega)
  have wy2 := wrapInt_of_range (⌊y⌋ + r) (by omega) (by omega)
  have wz1 := wrapInt_of_range (⌊z⌋ - r) (by omega) (by omega)
  have wz2 := wrapInt_of_range (⌊z⌋ + r) (by omega) (by omega)
  have hxh : ⌊x⌋ + r < 2147483647 := by omega
  have hyh : ⌊y⌋ + r < 2147483647 := by omega
  have hzh : ⌊z⌋ + r < 2147483647 := by omega
  simp only [Voronoi.nearestSeed, fx, fy, fz, wx1, wx2, wy1, wy2, wz1, wz2,
    forInt_some _ _ hxh, forInt_some _ _ hyh, forInt_some _ _ hzh, Voronoi.blockScan,
    Voronoi.scan, Voronoi.cells, foldl_flatMap_eq, List.foldl_map]

theorem Voronoi.visit_eq (env : Env) (seed : ℤ) (x y z : ℚ) (st : Nearest) (c : ℤ × ℤ × ℤ) :
    Voronoi.visit env seed x y z st c.1 c.2.1 c.2.2 =
      if sqDist x y z (Voronoi.seedPos env seed c) < st.minDist then
        ⟨sqDist x y z (Voronoi.seedPos env seed c), some (Voronoi.seedPos env seed c)⟩
      else st := rfl

theorem Voronoi.scan_nil (env : Env) (seed : ℤ) (x y z : ℚ) (st : Nearest) :
    Voronoi.scan env seed x y z st [] = st := rfl

theorem Voronoi.scan_cons (env : Env) (seed : ℤ) (x y z : ℚ) (st : Nearest) (c : ℤ × ℤ × ℤ)
    (cs : List (ℤ × ℤ × ℤ)) :
    Voronoi.scan env seed x y z st (c :: cs) =
      Voronoi.scan env seed x y z (Voronoi.visit env seed x y z st c.1 c.2.1 c.2.2) cs := rfl

theorem Voronoi.visit_minDist_le (env : Env) (seed : ℤ) (x y z : ℚ) (st : Nearest)
    (c : ℤ × ℤ × ℤ) :
    (Voronoi.visit env seed x y z st c.1 c.2.1 c.2.2).minDist ≤ st.minDist ∧
    (Voronoi.visit env seed x y z st c.1 c.2.1 c.2.2).minDist ≤
      sqDist x y z (Voronoi.seedPos env seed c) := by
  rw [Voronoi.visit_eq]
  split_ifs with h
  · exact ⟨le_of_lt h, le_refl _⟩
  · exact ⟨le_refl _, not_lt.mp h⟩

theorem Voronoi.scan_minDist_le_init (env : Env) (seed : ℤ) (x y z : ℚ) (st : Nearest)
    (cs : List (ℤ × ℤ × ℤ)) : (Voronoi.scan env seed x y z st cs).minDist ≤ st.minDist := by
  induction cs generalizing st with
  | nil => exact le_refl _
  | cons c cs ih =>
    rw [Voronoi.scan_cons]
    exact le_trans (ih _) (Voronoi.visit_minDist_le env seed x y z st c).1

theorem Voronoi.scan_minDist_le (env : Env) (seed : ℤ) (x y z : ℚ) (st : Nearest)
    (cs : List (ℤ × ℤ × ℤ)) (c : ℤ × ℤ × ℤ) (hc : c ∈ cs) :
    (Voronoi.scan env seed x y z st cs).minDist ≤ sqDist x y z (Voronoi.seedPos env seed c) := by
  induction cs generalizing st with
  | nil => exact absurd hc (List.not_mem_nil c)
  | cons d cs ih =>
    rw [Voronoi.scan_cons]
    rcases List.mem_cons.mp hc with h | h
    · rw [h]
      exact le_trans (Voronoi.scan_minDist_le_init env seed x y z _ cs)
        (Voronoi.visit_minDist_le env seed x y z st d).2
    · exact ih _ h

theorem Voronoi.scan_eq_or (env : Env) (seed : ℤ) (x y z : ℚ) (st : Nearest)
    (cs : List (ℤ × ℤ × ℤ)) :
    Voronoi.scan env seed x y z st cs = st ∨
      ∃ c ∈ cs, Voronoi.scan env seed x y z st cs =
        ⟨sqDist x y z (Voronoi.seedPos env seed c), some (Voronoi.seedPos env seed c)⟩ := by
  induction cs generalizing st with
  | nil => exact Or.inl rfl
  | cons d cs ih =>
    rw [Voronoi.scan_cons]
    rcases ih (Voronoi.visit env seed x y z st d.1 d.2.1 d.2.2) with h | ⟨c, hc, h⟩
    · rw [h, Voronoi.visit_eq]
      split_ifs with hlt
      · exact Or.inr ⟨d, List.mem_cons_self d cs, rfl⟩
      · exact Or.inl rfl
    · exact Or.inr ⟨c, List.mem_cons_of_mem d hc, h⟩

/-- The search ends on a recorded seed as soon as one scanned cell is below the sentinel:
the winner is a scanned cell, the tracked minimum is its squared distance and is a lower
bound for every scanned cell. -/
theorem Voronoi.blockScan_winner (env : Env) (seed r : ℤ) (x y z : ℚ) (c0 : ℤ × ℤ × ℤ)
    (hc0 : c0 ∈ Voronoi.cells r x y z)
    (hlt : sqDist x y z (Voronoi.seedPos env seed c0) < 2147483647) :
    ∃ w ∈ Voronoi.cells r x y z,
      Voronoi.blockScan env seed r x y z =
        ⟨sqDist x y z (Voronoi.seedPos env seed w), some (Voronoi.seedPos env seed w)⟩ ∧
      ∀ c ∈ Voronoi.cells r x y z,
        sqDist x y z (Voronoi.seedPos env seed w) ≤ sqDist x y z (Voronoi.seedPos env seed c) := by
  rw [Voronoi.blockScan_eq_scan]
  rcases Voronoi.scan_eq_or env seed x y z ⟨2147483647, none⟩ (Voronoi.cells r x y z) with
    h | ⟨w, hw, h⟩
  · have hle := Voronoi.scan_minDist_le env seed x y z ⟨2147483647, none⟩ _ c0 hc0
    rw [h] at hle
    exact absurd hlt (not_lt.mpr hle)
  · refine ⟨w, hw, h, fun c hc => ?_⟩
    have hle := Voronoi.scan_minDist_le env seed x y z ⟨2147483647, none⟩ _ c hc
    rw [h] at hle
    exact hle

theorem sq_lt_sixteen (d : ℚ) (h1 : -4 < d) (h2 : d ≤ 3) : d * d < 16 := by
  nlinarith

/-- With a hash in `[-1, 1]`, every seed of the 5×5×5 block is at squared distance below
`48` from the sample point. -/
theorem Voronoi.sqDist_lt_of_mem_cells (env : Env) (seed : ℤ) (x y z : ℚ)
    (hh : env.HashIn (-1) 1) (c : ℤ × ℤ × ℤ) (hc : c ∈ Voronoi.cells 2 x y z) :
    sqDist x y z (Voronoi.seedPos env seed c) < 48 := by
  obtain ⟨⟨hx1, hx2⟩, ⟨hy1, hy2⟩, ⟨hz1, hz2⟩⟩ := (mem_cells 2 x y z c).mp hc
  have hx1q : ((⌊x⌋ : ℤ) : ℚ) - 2 ≤ (c.1 : ℚ) := by exact_mod_cast hx1
  have hx2q : (c.1 : ℚ) ≤ ((⌊x⌋ : ℤ) : ℚ) + 2 := by exact_mod_cast hx2
  have hy1q : ((⌊y⌋ : ℤ) : ℚ) - 2 ≤ (c.2.1 : ℚ) := by exact_mod_cast hy1
  have hy2q : (c.2.1 : ℚ) ≤ ((⌊y⌋ : ℤ) : ℚ) + 2 := by exact_mod_cast hy2
  have hz1q : ((⌊z⌋ : ℤ) : ℚ) - 2 ≤ (c.2.2 : ℚ) := by exact_mod_cast hz1
  have hz2q : (c.2.2 : ℚ) ≤ ((⌊z⌋ : ℤ) : ℚ) + 2 := by exact_mod_cast hz2
  have fx1 := Int.floor_le x
  have fx2 := Int.lt_floor_add_one x
  have fy1 := Int.floor_le y
  have fy2 := Int.lt_floor_add_one y
  have fz1 := Int.floor_le z
  have fz2 := Int.lt_floor_add_one z
  have hX := hh c.1 c.2.1 c.2.2 seed
  have hY := hh c.1 c.2.1 c.2.2 (wrapInt (seed + 1))
  have hZ := hh c.1 c.2.1 c.2.2 (wrapInt (seed + 2))
  have ex := sq_lt_sixteen ((c.1 : ℚ) + env.ValueNoise3D c.1 c.2.1 c.2.2 seed - x)
    (by linarith [hX.1]) (by linarith [hX.2])
  have ey := sq_lt_sixteen ((c.2.1 : ℚ) + env.ValueNoise3D c.1 c.2.1 c.2.2 (wrapInt (seed + 1)) - y)
    (by linarith [hY.1]) (by linarith [hY.2])
  have ez := sq_lt_sixteen ((c.2.2 : ℚ) + env.ValueNoise3D c.1 c.2.1 c.2.2 (wrapInt (seed + 2)) - z)
    (by linarith [hZ.1]) (by linarith [hZ.2])
  simp only [sqDist, Voronoi.seedPos]
  linarith

theorem Voronoi.floorCell_mem_cells (r : ℤ) (hr : 0 ≤ r) (x y z : ℚ) :
    (⌊x⌋, ⌊y⌋, ⌊z⌋) ∈ Voronoi.cells r x y z := by
  rw [mem_cells]
  refine ⟨⟨?_, ?_⟩, ⟨?_, ?_⟩, ⟨?_, ?_⟩⟩ <;> simp only <;> omega

/-- With a hash in `[-1, 1]` the 5×5×5 search of the code records a winner. -/
theorem Voronoi.blockScan_recorded (env : Env) (seed : ℤ) (x y z : ℚ)
    (hh : env.HashIn (-1) 1) :
    ∃ w ∈ Voronoi.cells 2 x y z,
      Voronoi.blockScan env seed 2 x y z =
        ⟨sqDist x y z (Voronoi.seedPos env seed w), some (Voronoi.seedPos env seed w)⟩ ∧
      ∀ c ∈ Voronoi.cells 2 x y z,
        sqDist x y z (Voronoi.seedPos env seed w) ≤ sqDist x y z (Voronoi.seedPos env seed c) := by
  have hmem := Voronoi.floorCell_mem_cells 2 (by norm_num) x y z
  refine Voronoi.blockScan_winner env seed 2 x y z _ hmem ?_
  have h := Voronoi.sqDist_lt_of_mem_cells env seed x y z hh _ hmem
  linarith

/-! ## Voronoi: the output value -/

theorem floor_int_add_near (a : ℤ) (h : ℚ) (h1 : -1 ≤ h) (h2 : h ≤ 1) :
    a - 1 ≤ ⌊(a : ℚ) + h⌋ ∧ ⌊(a : ℚ) + h⌋ ≤ a + 1 := by
  rw [Int.floor_int_add]
  have l1 : (-1 : ℤ) ≤ ⌊h⌋ := Int.le_floor.mpr (by exact_mod_cast h1)
  have l2 : ⌊h⌋ < 2 := Int.floor_lt.mpr (by
    have : h < 2 := by linarith
    exact_mod_cast this)
  omega

/-- With a hash in `[-1, 1]` and the floor cell at least `3` inside the `int` range, the
floor of every seed position of the 5×5×5 block fits an `int`. -/
theorem Voronoi.floorToInt_seedPos (env : Env) (seed : ℤ) (x y z : ℚ) (hh : env.HashIn (-1) 1)
    (hp : Voronoi.PointInRange 3 x y z) (c : ℤ × ℤ × ℤ) (hc : c ∈ Voronoi.cells 2 x y z) :
    floorToInt (Voronoi.seedPos env seed c).1 = ⌊(Voronoi.seedPos env seed c).1⌋ ∧
    floorToInt (Voronoi.seedPos env seed c).2.1 = ⌊(Voronoi.seedPos env seed c).2.1⌋ ∧
    floorToInt (Voronoi.seedPos env seed c).2.2 = ⌊(Voronoi.seedPos env seed c).2.2⌋ := by
  obtain ⟨⟨hx1, hx2⟩, ⟨hy1, hy2⟩, ⟨hz1, hz2⟩⟩ := (mem_cells 2 x y z c).mp hc
  obtain ⟨⟨px1, px2⟩, ⟨py1, py2⟩, ⟨pz1, pz2⟩⟩ := hp
  have hX := hh c.1 c.2.1 c.2.2 seed
  have hY := hh c.1 c.2.1 c.2.2 (wrapInt (seed + 1))
  have hZ := hh c.1 c.2.1 c.2.2 (wrapInt (seed + 2))
  have nx := floor_int_add_near c.1 _ hX.1 hX.2
  have ny := floor_int_add_near c.2.1 _ hY.1 hY.2
  have nz := floor_int_add_near c.2.2 _ hZ.1 hZ.2
  refine ⟨floorToInt_of_range _ ?_ ?_, floorToInt_of_range _ ?_ ?_, floorToInt_of_range _ ?_ ?_⟩
  · show -2147483648 ≤ ⌊(c.1 : ℚ) + _⌋
    omega
  · show ⌊(c.1 : ℚ) + _⌋ ≤ 2147483647
    omega
  · show -2147483648 ≤ ⌊(c.2.1 : ℚ) + _⌋
    omega
  · show ⌊(c.2.1 : ℚ) + _⌋ ≤ 2147483647
    omega
  · show -2147483648 ≤ ⌊(c.2.2 : ℚ) + _⌋
    omega
  · show ⌊(c.2.2 : ℚ) + _⌋ ≤ 2147483647
    omega

theorem Voronoi.GetValue_of_candidate (env : Env) (v : Voronoi) (x y z : ℚ) (st : Nearest)
    (w : ℚ × ℚ × ℚ)
    (hn : Voronoi.nearestSeed env v.m_seed 2 (x * v.m_frequency) (y * v.m_frequency)
      (z * v.m_frequency) = some st)
    (hc : st.candidate = some w) :
    Voronoi.GetValue env v x y z =
      some (Voronoi.distanceTerm env v x y z w +
        v.m_displacement * env.ValueNoise3D (floorToInt w.1) (floorToInt w.2.1)
          (floorToInt w.2.2) env.defaultSeed) := by
  obtain ⟨w1, w2, w3⟩ := w
  simp only [Voronoi.GetValue, hn, hc, Voronoi.distanceTerm, sqDist]

theorem Voronoi.valueWithConfiguredSeed_of_candidate (env : Env) (v : Voronoi) (x y z : ℚ)
    (st : Nearest) (w : ℚ × ℚ × ℚ)
    (hn : Voronoi.nearestSeed env v.m_seed 2 (x * v.m_frequency) (y * v.m_frequency)
      (z * v.m_frequency) = some st)
    (hc : st.candidate = some w) :
    Voronoi.valueWithConfiguredSeed env v x y z =
      some (Voronoi.distanceTerm env v x y z w +
        v.m_displacement * env.ValueNoise3D ⌊w.1⌋ ⌊w.2.1⌋ ⌊w.2.2⌋ v.m_seed) := by
  simp only [Voronoi.valueWithConfiguredSeed, hn, hc]

/-- Inside the `int` range and with a hash in `[-1, 1]`: the search returns with a recorded
winner, a nearest seed of the 5×5×5 block, and `GetValue` returns the distance term plus
`displacement * hash (floor (winner), defaultSeed)`. -/
theorem Voronoi.GetValue_in_range (env : Env) (v : Voronoi) (x y z : ℚ)
    (hh : env.HashIn (-1) 1)
    (hp : Voronoi.PointInRange 3 (x * v.m_frequency) (y * v.m_frequency) (z * v.m_frequency)) :
    ∃ w ∈ Voronoi.cells 2 (x * v.m_frequency) (y * v.m_frequency) (z * v.m_frequency),
      Voronoi.nearestSeed env v.m_seed 2 (x * v.m_frequency) (y * v.m_frequency)
          (z * v.m_frequency) =
        some ⟨sqDist (x * v.m_frequency) (y * v.m_frequency) (z * v.m_frequency)
            (Voronoi.seedPos env v.m_seed w), some (Voronoi.seedPos env v.m_seed w)⟩ ∧
      (∀ c ∈ Voronoi.cells 2 (x * v.m_frequency) (y * v.m_frequency) (z * v.m_frequency),
        sqDist (x * v.m_frequency) (y * v.m_frequency) (z * v.m_frequency)
            (Voronoi.seedPos env v.m_seed w) ≤
          sqDist (x * v.m_frequency) (y * v.m_frequency) (z * v.m_frequency)
            (Voronoi.seedPos env v.m_seed c)) ∧
      Voronoi.GetValue env v x y z =
        some (Voronoi.distanceTerm env v x y z (Voronoi.seedPos env v.m_seed w) +
          v.m_displacement * env.ValueNoise3D ⌊(Voronoi.seedPos env v.m_seed w).1⌋
            ⌊(Voronoi.seedPos env v.m_seed w).2.1⌋ ⌊(Voronoi.seedPos env v.m_seed w).2.2⌋
            env.defaultSeed) := by
  obtain ⟨w, hw, hn, hmin⟩ := Voronoi.blockScan_recorded env v.m_seed
    (x * v.m_frequency) (y * v.m_frequency) (z * v.m_frequency) hh
  have hns := Voronoi.nearestSeed_eq_blockScan env v.m_seed 2 (x * v.m_frequency)
    (y * v.m_frequency) (z * v.m_frequency) (by norm_num) hp
  rw [hn] at hns
  obtain ⟨f1, f2, f3⟩ := Voronoi.floorToInt_seedPos env v.m_seed _ _ _ hh hp w hw
  refine ⟨w, hw, hns, hmin, ?_⟩
  rw [Voronoi.GetValue_of_candidate env v x y z _ _ hns rfl, f1, f2, f3]

theorem floor_big : ⌊(3000000000 : ℚ)⌋ = 3000000000 := by
  rw [Int.floor_eq_iff]
  norm_num

theorem floor_zero_mul_one : ⌊((0 : ℚ) * 1)⌋ = 0 := by
  rw [Int.floor_eq_iff]
  norm_num

/-- At the point `(3000000000, 0, 0)` the conversion of the `x` coordinate gives `INT_MIN`,
the bounds of the `x` loop wrap to `2147483646` and `-2147483646`, and no cell is visited:
the search returns the sentinel with no candidate. -/
theorem Voronoi.nearestSeed_far (env : Env) (seed : ℤ) :
    Voronoi.nearestSeed env seed 2 (3000000000 * 1) (0 * 1) (0 * 1) =
      some ⟨2147483647, none⟩ := by
  have fx : floorToInt ((3000000000 : ℚ) * 1) = -2147483648 := by
    unfold floorToInt
    rw [mul_one, floor_big]
    norm_num
  have f0 : floorToInt ((0 : ℚ) * 1) = 0 := by
    unfold floorToInt
    rw [floor_zero_mul_one]
    norm_num
  have w1 : wrapInt (-2147483648 - 2) = 2147483646 := by norm_num [wrapInt]
  have w2 : wrapInt (-2147483648 + 2) = -2147483646 := by norm_num [wrapInt]
  have w3 : wrapInt (0 - 2) = -2 := by norm_num [wrapInt]
  have w4 : wrapInt (0 + 2) = 2 := by norm_num [wrapInt]
  simp only [Voronoi.nearestSeed, fx, f0, w1, w2, w3, w4]
  refine forInt_id (-2) 2 (by norm_num) _ ?_ _
  intro s _
  refine forInt_id (-2) 2 (by norm_num) _ ?_ _
  intro s2 _
  exact forInt_empty 2147483646 (-2147483646) (by norm_num) _ _

theorem Voronoi.GetValue_of_no_candidate (env : Env) (v : Voronoi) (x y z : ℚ) (st : Nearest)
    (hn : Voronoi.nearestSeed env v.m_seed 2 (x * v.m_frequency) (y * v.m_frequency)
      (z * v.m_frequency) = some st)
    (hc : st.candidate = none) :
    Voronoi.GetValue env v x y z = none := by
  simp only [Voronoi.GetValue, hn, hc]

theorem Voronoi.GetValue_far (env : Env) (d : ℚ) (seed : ℤ) (b : Bool) :
    Voronoi.GetValue env ⟨d, 1, seed, b⟩ 3000000000 0 0 = none :=
  Voronoi.GetValue_of_no_candidate env ⟨d, 1, seed, b⟩ 3000000000 0 0 ⟨2147483647, none⟩
    (Voronoi.nearestSeed_far env seed) rfl

theorem seedOnlyHash_in : (Env.ofHash seedOnlyHash).HashIn (-1) 1 := by
  intro x y z seed
  show -1 ≤ seedOnlyHash x y z seed ∧ seedOnlyHash x y z seed ≤ 1
  unfold seedOnlyHash
  split_ifs <;> norm_num

theorem pointInRange_origin (m : ℤ) (h0 : 0 ≤ m) (h1 : m ≤ 2147483647) :
    Voronoi.PointInRange m ((0 : ℚ) * 1) (0 * 1) (0 * 1) := by
  unfold Voronoi.PointInRange
  rw [floor_zero_mul_one]
  omega

/-- C8, counterexample.  With the hash `seedOnlyHash` (`0` for seed `0`, `1/2` otherwise) and
default seed `0`, a module with seed `1`, displacement `1`, frequency `1` and distance
disabled returns `0` at the origin, while the distance term plus
`displacement * hash (floor (winner), 1)` is `1/2`.  At the point `(3000000000, 0, 0)`,
outside the `int` range, the same module returns no value. -/
theorem Voronoi.GetValue_ignores_configured_seed :
    Voronoi.GetValue (Env.ofHash seedOnlyHash) ⟨1, 1, 1, false⟩ 0 0 0 = some 0 ∧
    Voronoi.valueWithConfiguredSeed (Env.ofHash seedOnlyHash) ⟨1, 1, 1, false⟩ 0 0 0
      = some (1 / 2) ∧
    Voronoi.GetValue (Env.ofHash seedOnlyHash) ⟨1, 1, 1, false⟩ 0 0 0 ≠
      Voronoi.valueWithConfiguredSeed (Env.ofHash seedOnlyHash) ⟨1, 1, 1, false⟩ 0 0 0 ∧
    Voronoi.GetValue (Env.ofHash seedOnlyHash) ⟨1, 1, 1, false⟩ 3000000000 0 0 = none := by
  obtain ⟨w, _, hn, _, hv⟩ := Voronoi.GetValue_in_range (Env.ofHash seedOnlyHash)
    ⟨1, 1, 1, false⟩ 0 0 0 seedOnlyHash_in (pointInRange_origin 3 (by norm_num) (by norm_num))
  have h2 := Voronoi.valueWithConfiguredSeed_of_candidate (Env.ofHash seedOnlyHash)
    ⟨1, 1, 1, false⟩ 0 0 0 _ _ hn rfl
  have e1 : Voronoi.GetValue (Env.ofHash seedOnlyHash) ⟨1, 1, 1, false⟩ 0 0 0 = some 0 := by
    rw [hv]
    simp [Voronoi.distanceTerm, Env.ofHash, seedOnlyHash]
  have e2 : Voronoi.valueWithConfiguredSeed (Env.ofHash seedOnlyHash) ⟨1, 1, 1, false⟩ 0 0 0
      = some (1 / 2) := by
    rw [h2]
    simp [Voronoi.distanceTerm, Env.ofHash, seedOnlyHash]
  refine ⟨e1, e2, ?_, Voronoi.GetValue_far _ 1 1 false⟩
  rw [e1, e2]
  norm_num

/-- C8, amended.  For a hash with values in `[-1, 1]`, every configuration, and every sample
point whose scaled coordinates have their floor at least `3` inside the `int` range,
`Voronoi::GetValue` returns the distance term (`0` when distance is disabled) plus
`displacement * hash (floor (winning seed position), defaultSeed)`: the floor is taken per
axis, the winner is the seed the search recorded, a nearest seed of the 5×5×5 block, and the
hash is called without the configured seed, so with the default seed of its declaration. -/
theorem Voronoi.GetValue_displacement_term (env : Env) (v : Voronoi) (x y z : ℚ)
    (hh : env.HashIn (-1) 1)
    (hp : Voronoi.PointInRange 3 (x * v.m_frequency) (y * v.m_frequency) (z * v.m_frequency)) :
    ∃ c ∈ Voronoi.cells 2 (x * v.m_frequency) (y * v.m_frequency) (z * v.m_frequency),
      (∃ st : Nearest,
        Voronoi.nearestSeed env v.m_seed 2 (x * v.m_frequency) (y * v.m_frequency)
          (z * v.m_frequency) = some st ∧
        st.candidate = some (Voronoi.seedPos env v.m_seed c)) ∧
      (∀ d ∈ Voronoi.cells 2 (x * v.m_frequency) (y * v.m_frequency) (z * v.m_frequency),
        sqDist (x * v.m_frequency) (y * v.m_frequency) (z * v.m_frequency)
            (Voronoi.seedPos env v.m_seed c) ≤
          sqDist (x * v.m_frequency) (y * v.m_frequency) (z * v.m_frequency)
            (Voronoi.seedPos env v.m_seed d)) ∧
      Voronoi.GetValue env v x y z =
        some ((if v.m_enableDistance then
              env.sqrt (sqDist (x * v.m_frequency) (y * v.m_frequency) (z * v.m_frequency)
                (Voronoi.seedPos env v.m_seed c)) * env.SQRT_3 - 1
            else 0) +
          v.m_displacement *
            env.ValueNoise3D ⌊(Voronoi.seedPos env v.m_seed c).1⌋
              ⌊(Voronoi.seedPos env v.m_seed c).2.1⌋ ⌊(Voronoi.seedPos env v.m_seed c).2.2⌋
              env.defaultSeed) := by
  obtain ⟨w, hw, hn, hmin, hv⟩ := Voronoi.GetValue_in_range env v x y z hh hp
  refine ⟨w, hw, ⟨_, hn, rfl⟩, hmin, ?_⟩
  rw [hv]
  rfl

/-- Witness for C8 (amended): the hash `seedOnlyHash` has its values in `[-1, 1]` and the
origin is inside the `int` range, so the module with seed `1`, displacement `1`, frequency
`1` and distance disabled returns, at the origin, `0 + 1 * seedOnlyHash (floor (winner), 0)`
for a nearest seed of the block. -/
theorem Voronoi.GetValue_displacement_term_witness :
    ∃ c ∈ Voronoi.cells 2 ((0 : ℚ) * 1) (0 * 1) (0 * 1),
      Voronoi.GetValue (Env.ofHash seedOnlyHash) ⟨1, 1, 1, false⟩ 0 0 0 =
        some (0 + 1 * seedOnlyHash
          ⌊(Voronoi.seedPos (Env.ofHash seedOnlyHash) 1 c).1⌋
          ⌊(Voronoi.seedPos (Env.ofHash seedOnlyHash) 1 c).2.1⌋
          ⌊(Voronoi.seedPos (Env.ofHash seedOnlyHash) 1 c).2.2⌋ 0) := by
  obtain ⟨c, hc, _, _, hv⟩ := Voronoi.GetValue_displacement_term (Env.ofHash seedOnlyHash)
    ⟨1, 1, 1, false⟩ 0 0 0 seedOnlyHash_in (pointInRange_origin 3 (by norm_num) (by norm_num))
  exact ⟨c, hc, hv⟩

/-! ## Voronoi: size of the scanned block -/

theorem forRange_five (c : ℤ) : forRange (c - 2) (c + 2) = [c - 2, c - 1, c, c + 1, c + 2] := by
  have h : (c + 2 + 1 - (c - 2)).toNat = 5 := by
    have : c + 2 + 1 - (c - 2) = 5 := by ring
    rw [this]; rfl
  simp only [forRange, h, List.range_succ, List.range_zero, List.nil_append, List.cons_append,
    List.map_cons, List.map_nil]
  have e0 : c - 2 + ((0 : ℕ) : ℤ) = c - 2 := by omega
  have e1 : c - 2 + ((0 + 1 : ℕ) : ℤ) = c - 1 := by omega
  have e2 : c - 2 + ((0 + 1 + 1 : ℕ) : ℤ) = c := by omega
  have e3 : c - 2 + ((0 + 1 + 1 + 1 : ℕ) : ℤ) = c + 1 := by omega
  have e4 : c - 2 + ((0 + 1 + 1 + 1 + 1 : ℕ) : ℤ) = c + 2 := by omega
  rw [e0, e1, e2, e3, e4]

theorem forRange_nine (c : ℤ) :
    forRange (c - 4) (c + 4) = [c - 4, c - 3, c - 2, c - 1, c, c + 1, c + 2, c + 3, c + 4] := by
  have h : (c + 4 + 1 - (c - 4)).toNat = 9 := by
    have : c + 4 + 1 - (c - 4) = 9 := by ring
    rw [this]; rfl
  simp only [forRange, h, List.range_succ, List.range_zero, List.nil_append, List.cons_append,
    List.map_cons, List.map_nil]
  have e0 : c - 4 + ((0 : ℕ) : ℤ) = c - 4 := by omega
  have e1 : c - 4 + ((0 + 1 : ℕ) : ℤ) = c - 3 := by omega
  have e2 : c - 4 + ((0 + 1 + 1 : ℕ) : ℤ) = c - 2 := by omega
  have e3 : c - 4 + ((0 + 1 + 1 + 1 : ℕ) : ℤ) = c - 1 := by omega
  have e4 : c - 4 + ((0 + 1 + 1 + 1 + 1 : ℕ) : ℤ) = c := by omega
  have e5 : c - 4 + ((0 + 1 + 1 + 1 + 1 + 1 : ℕ) : ℤ) = c + 1 := by omega
  have e6 : c - 4 + ((0 + 1 + 1 + 1 + 1 + 1 + 1 : ℕ) : ℤ) = c + 2 := by omega
  have e7 : c - 4 + ((0 + 1 + 1 + 1 + 1 + 1 + 1 + 1 : ℕ) : ℤ) = c + 3 := by omega
  have e8 : c - 4 + ((0 + 1 + 1 + 1 + 1 + 1 + 1 + 1 + 1 : ℕ) : ℤ) = c + 4 := by omega
  rw [e0, e1, e2, e3, e4, e5, e6, e7, e8]

theorem forRange_filter_block (c : ℤ) :
    (forRange (c - 4) (c + 4)).filter (fun a => decide (c - 2 ≤ a ∧ a ≤ c + 2)) =
      forRange (c - 2) (c + 2) := by
  rw [forRange_nine, forRange_five]
  rw [List.filter_cons_of_neg (by rw [decide_eq_true_eq]; omega),
    List.filter_cons_of_neg (by rw [decide_eq_true_eq]; omega),
    List.filter_cons_of_pos (by rw [decide_eq_true_eq]; omega),
    List.filter_cons_of_pos (by rw [decide_eq_true_eq]; omega),
    List.filter_cons_of_pos (by rw [decide_eq_true_eq]; omega),
    List.filter_cons_of_pos (by rw [decide_eq_true_eq]; omega),
    List.filter_cons_of_pos (by rw [decide_eq_true_eq]; omega),
    List.filter_cons_of_neg (by rw [decide_eq_true_eq]; omega),
    List.filter_cons_of_neg (by rw [decide_eq_true_eq]; omega), List.filter_nil]

theorem length_flatMap_const {α β : Type} (f : α → List β) (k : ℕ) (hk : ∀ a, (f a).length = k)
    (l : List α) : (l.flatMap f).length = l.length * k := by
  induction l with
  | nil => simp
  | cons a l ih => rw [List.flatMap_cons, List.length_append, ih, hk, List.length_cons]; ring

theorem Voronoi.cells_length (x y z : ℚ) : (Voronoi.cells 2 x y z).length = 125 := by
  unfold Voronoi.cells
  rw [length_flatMap_const _ 25, forRange_five]
  · rfl
  · intro zc
    rw [length_flatMap_const _ 5, forRange_five]
    · rfl
    · intro yc
      rw [List.length_map, forRange_five]
      rfl

theorem filter_flatMap_select {α β : Type} (q : α → Bool) (f g : α → List β) (p : β → Bool)
    (h1 : ∀ a, q a = true → (f a).filter p = g a) (h2 : ∀ a, q a = false → (f a).filter p = [])
    (l : List α) : (l.flatMap f).filter p = (l.filter q).flatMap g := by
  induction l with
  | nil => rfl
  | cons a l ih =>
    rw [List.flatMap_cons, List.filter_append, ih]
    cases hq : q a with
    | true => rw [h1 a hq, List.filter_cons_of_pos hq, List.flatMap_cons]
    | false =>
      rw [h2 a hq, List.filter_cons_of_neg (by rw [hq]; exact Bool.false_ne_true),
        List.nil_append]

/-- The 5×5×5 block is the 9×9×9 block restricted to offsets `-2 .. +2`, in the same order. -/
theorem Voronoi.cells_filter_inBlock (x y z : ℚ) :
    (Voronoi.cells 4 x y z).filter (Voronoi.inBlock x y z) = Voronoi.cells 2 x y z := by
  unfold Voronoi.cells
  rw [filter_flatMap_select (fun zc => decide (⌊z⌋ - 2 ≤ zc ∧ zc ≤ ⌊z⌋ + 2)) _
    (fun zCur => (forRange (⌊y⌋ - 2) (⌊y⌋ + 2)).flatMap fun yCur =>
      (forRange (⌊x⌋ - 2) (⌊x⌋ + 2)).map fun xCur => (xCur, yCur, zCur)), forRange_filter_block]
  · intro zc hz
    rw [filter_flatMap_select (fun yc => decide (⌊y⌋ - 2 ≤ yc ∧ yc ≤ ⌊y⌋ + 2)) _
      (fun yCur => (forRange (⌊x⌋ - 2) (⌊x⌋ + 2)).map fun xCur => (xCur, yCur, zc)),
      forRange_filter_block]
    · intro yc hy
      rw [List.filter_map, ← forRange_filter_block]
      congr 1
      apply List.filter_congr
      intro xc _
      simp only [Function.comp, Voronoi.inBlock, hy, hz, Bool.and_true]
    · intro yc hy
      rw [List.filter_eq_nil_iff]
      intro c hc
      obtain ⟨xc, _, rfl⟩ := List.mem_map.mp hc
      simp only [Voronoi.inBlock, hy, Bool.false_and, Bool.and_false]
      exact Bool.false_ne_true
  · intro zc hz
    rw [List.filter_eq_nil_iff]
    intro c hc
    obtain ⟨yc, _, hc2⟩ := List.mem_flatMap.mp hc
    obtain ⟨xc, _, rfl⟩ := List.mem_map.mp hc2
    simp only [Voronoi.inBlock, hz, Bool.and_false]
    exact Bool.false_ne_true

/-! ## Voronoi: the block against a wider search -/

/-- Scanning a list and scanning its restriction to `P` end in the same state, or both end
at or above `B`, when the cells outside `P` are all at squared distance `B` or more. -/
theorem Voronoi.scan_filter_rel (env : Env) (seed : ℤ) (x y z : ℚ) (P : ℤ × ℤ × ℤ → Bool)
    (B : ℚ) (cs : List (ℤ × ℤ × ℤ))
    (hfar : ∀ c ∈ cs, P c = false → B ≤ sqDist x y z (Voronoi.seedPos env seed c))
    (s t : Nearest) (h : s = t ∨ (B ≤ s.minDist ∧ B ≤ t.minDist)) :
    Voronoi.scan env seed x y z s cs = Voronoi.scan env seed x y z t (cs.filter P) ∨
      (B ≤ (Voronoi.scan env seed x y z s cs).minDist ∧
        B ≤ (Voronoi.scan env seed x y z t (cs.filter P)).minDist) := by
  induction cs generalizing s t with
  | nil => exact h
  | cons c cs ih =>
    have hfar2 : ∀ d ∈ cs, P d = false → B ≤ sqDist x y z (Voronoi.seedPos env seed d) :=
      fun d hd => hfar d (List.mem_cons_of_mem c hd)
    cases hP : P c with
    | false =>
      have hB := hfar c (List.mem_cons_self c cs) hP
      rw [List.filter_cons_of_neg (by rw [hP]; exact Bool.false_ne_true), Voronoi.scan_cons]
      apply ih hfar2
      rw [Voronoi.visit_eq]
      split_ifs with hlt
      · right
        rcases h with h | h
        · rw [← h]; exact ⟨hB, le_trans hB (le_of_lt hlt)⟩
        · exact ⟨hB, h.2⟩
      · exact h
    | true =>
      rw [List.filter_cons_of_pos hP, Voronoi.scan_cons, Voronoi.scan_cons]
      apply ih hfar2
      rcases h with h | h
      · left; rw [h]
      · rw [Voronoi.visit_eq, Voronoi.visit_eq]
        by_cases hd : sqDist x y z (Voronoi.seedPos env seed c) < B
        · left
          rw [if_pos (lt_of_lt_of_le hd h.1), if_pos (lt_of_lt_of_le hd h.2)]
        · right
          have hd2 := not_lt.mp hd
          constructor
          · split_ifs
            · exact hd2
            · exact h.1
          · split_ifs
            · exact hd2
            · exact h.2

theorem sq_ge_four (d : ℚ) (h : d ≤ -2 ∨ 2 ≤ d) : 4 ≤ d * d := by
  rcases h with h | h <;> nlinarith

theorem sq_le_one (d : ℚ) (h1 : -1 ≤ d) (h2 : d ≤ 1) : d * d ≤ 1 := by
  nlinarith

/-- With a hash in `[0, 1]`, a seed outside the 5×5×5 block is at squared distance `4`
or more. -/
theorem Voronoi.sqDist_far (env : Env) (seed : ℤ) (x y z : ℚ) (hh : env.HashIn 0 1)
    (c : ℤ × ℤ × ℤ) (hc : Voronoi.inBlock x y z c = false) :
    4 ≤ sqDist x y z (Voronoi.seedPos env seed c) := by
  have fx1 := Int.floor_le x
  have fx2 := Int.lt_floor_add_one x
  have fy1 := Int.floor_le y
  have fy2 := Int.lt_floor_add_one y
  have fz1 := Int.floor_le z
  have fz2 := Int.lt_floor_add_one z
  have hX := hh c.1 c.2.1 c.2.2 seed
  have hY := hh c.1 c.2.1 c.2.2 (wrapInt (seed + 1))
  have hZ := hh c.1 c.2.1 c.2.2 (wrapInt (seed + 2))
  have nx := mul_self_nonneg ((c.1 : ℚ) + env.ValueNoise3D c.1 c.2.1 c.2.2 seed - x)
  have ny := mul_self_nonneg ((c.2.1 : ℚ) + env.ValueNoise3D c.1 c.2.1 c.2.2 (wrapInt (seed + 1)) - y)
  have nz := mul_self_nonneg ((c.2.2 : ℚ) + env.ValueNoise3D c.1 c.2.1 c.2.2 (wrapInt (seed + 2)) - z)
  have key : ∀ (a f : ℤ) (h p : ℚ), ¬ (f - 2 ≤ a ∧ a ≤ f + 2) → 0 ≤ h → h ≤ 1 → (f : ℚ) ≤ p →
      p < (f : ℚ) + 1 → 4 ≤ ((a : ℚ) + h - p) * ((a : ℚ) + h - p) := by
    intro a f h p hout h0 h1 hp1 hp2
    apply sq_ge_four
    have hcases : a ≤ f - 3 ∨ f + 3 ≤ a := by omega
    rcases hcases with ha | ha
    · left
      have : (a : ℚ) ≤ (f : ℚ) - 3 := by exact_mod_cast ha
      linarith
    · right
      have : (f : ℚ) + 3 ≤ (a : ℚ) := by exact_mod_cast ha
      linarith
  simp only [sqDist, Voronoi.seedPos]
  simp only [Voronoi.inBlock, Bool.and_eq_false_iff, decide_eq_false_iff_not] at hc
  rcases hc with hc | hc | hc
  · have := key c.1 ⌊x⌋ _ x hc hX.1 hX.2 fx1 fx2
    linarith
  · have := key c.2.1 ⌊y⌋ _ y hc hY.1 hY.2 fy1 fy2
    linarith
  · have := key c.2.2 ⌊z⌋ _ z hc hZ.1 hZ.2 fz1 fz2
    linarith

/-- With a hash in `[0, 1]`, the seed of the floor cell is at squared distance at most `3`. -/
theorem Voronoi.sqDist_floorCell (env : Env) (seed : ℤ) (x y z : ℚ) (hh : env.HashIn 0 1) :
    sqDist x y z (Voronoi.seedPos env seed (⌊x⌋, ⌊y⌋, ⌊z⌋)) ≤ 3 := by
  have fx1 := Int.floor_le x
  have fx2 := Int.lt_floor_add_one x
  have fy1 := Int.floor_le y
  have fy2 := Int.lt_floor_add_one y
  have fz1 := Int.floor_le z
  have fz2 := Int.lt_floor_add_one z
  have hX := hh ⌊x⌋ ⌊y⌋ ⌊z⌋ seed
  have hY := hh ⌊x⌋ ⌊y⌋ ⌊z⌋ (wrapInt (seed + 1))
  have hZ := hh ⌊x⌋ ⌊y⌋ ⌊z⌋ (wrapInt (seed + 2))
  have ex := sq_le_one ((⌊x⌋ : ℚ) + env.ValueNoise3D ⌊x⌋ ⌊y⌋ ⌊z⌋ seed - x)
    (by linarith [hX.1]) (by linarith [hX.2])
  have ey := sq_le_one ((⌊y⌋ : ℚ) + env.ValueNoise3D ⌊x⌋ ⌊y⌋ ⌊z⌋ (wrapInt (seed + 1)) - y)
    (by linarith [hY.1]) (by linarith [hY.2])
  have ez := sq_le_one ((⌊z⌋ : ℚ) + env.ValueNoise3D ⌊x⌋ ⌊y⌋ ⌊z⌋ (wrapInt (seed + 2)) - z)
    (by linarith [hZ.1]) (by linarith [hZ.2])
  simp only [sqDist, Voronoi.seedPos]
  linarith

theorem wrapInt_small_one : wrapInt (0 + 1) = 1 := by norm_num [wrapInt]

theorem wrapInt_small_two : wrapInt (0 + 2) = 2 := by norm_num [wrapInt]

theorem pointInRange_mono (m n : ℤ) (hmn : n ≤ m) (x y z : ℚ) (h : Voronoi.PointInRange m x y z) :
    Voronoi.PointInRange n x y z := by
  unfold Voronoi.PointInRange at h ⊢
  omega

/-- Scanning a list and scanning its restriction to `P` end in the same state, or both end
above `B`, when the cells outside `P` are all at squared distance above `B`. -/
theorem Voronoi.scan_filter_rel_strict (env : Env) (seed : ℤ) (x y z : ℚ)
    (P : ℤ × ℤ × ℤ → Bool) (B : ℚ) (cs : List (ℤ × ℤ × ℤ))
    (hfar : ∀ c ∈ cs, P c = false → B < sqDist x y z (Voronoi.seedPos env seed c))
    (s t : Nearest) (h : s = t ∨ (B < s.minDist ∧ B < t.minDist)) :
    Voronoi.scan env seed x y z s cs = Voronoi.scan env seed x y z t (cs.filter P) ∨
      (B < (Voronoi.scan env seed x y z s cs).minDist ∧
        B < (Voronoi.scan env seed x y z t (cs.filter P)).minDist) := by
  induction cs generalizing s t with
  | nil => exact h
  | cons c cs ih =>
    have hfar2 : ∀ d ∈ cs, P d = false → B < sqDist x y z (Voronoi.seedPos env seed d) :=
      fun d hd => hfar d (List.mem_cons_of_mem c hd)
    cases hP : P c with
    | false =>
      have hB := hfar c (List.mem_cons_self c cs) hP
      rw [List.filter_cons_of_neg (by rw [hP]; exact Bool.false_ne_true), Voronoi.scan_cons]
      apply ih hfar2
      rw [Voronoi.visit_eq]
      split_ifs with hlt
      · right
        rcases h with h | h
        · rw [← h]; exact ⟨hB, lt_trans hB hlt⟩
        · exact ⟨hB, h.2⟩
      · exact h
    | true =>
      rw [List.filter_cons_of_pos hP, Voronoi.scan_cons, Voronoi.scan_cons]
      apply ih hfar2
      rcases h with h | h
      · left; rw [h]
      · rw [Voronoi.visit_eq, Voronoi.visit_eq]
        by_cases hd : sqDist x y z (Voronoi.seedPos env seed c) ≤ B
        · left
          rw [if_pos (lt_of_le_of_lt hd h.1), if_pos (lt_of_le_of_lt hd h.2)]
        · right
          have hd2 := not_le.mp hd
          constructor
          · split_ifs
            · exact hd2
            · exact h.1
          · split_ifs
            · exact hd2
            · exact h.2

theorem sq_gt_one (d : ℚ) (h : d ≤ -2 ∨ 1 < d) : 1 < d * d := by
  rcases h with h | h <;> nlinarith

/-- With a hash in `[-1, 1]`, a seed outside the 5×5×5 block is at squared distance
above `1`. -/
theorem Voronoi.sqDist_outside (env : Env) (seed : ℤ) (x y z : ℚ) (hh : env.HashIn (-1) 1)
    (c : ℤ × ℤ × ℤ) (hc : Voronoi.inBlock x y z c = false) :
    1 < sqDist x y z (Voronoi.seedPos env seed c) := by
  have fx1 := Int.floor_le x
  have fx2 := Int.lt_floor_add_one x
  have fy1 := Int.floor_le y
  have fy2 := Int.lt_floor_add_one y
  have fz1 := Int.floor_le z
  have fz2 := Int.lt_floor_add_one z
  have hX := hh c.1 c.2.1 c.2.2 seed
  have hY := hh c.1 c.2.1 c.2.2 (wrapInt (seed + 1))
  have hZ := hh c.1 c.2.1 c.2.2 (wrapInt (seed + 2))
  have nx := mul_self_nonneg ((c.1 : ℚ) + env.ValueNoise3D c.1 c.2.1 c.2.2 seed - x)
  have ny := mul_self_nonneg
    ((c.2.1 : ℚ) + env.ValueNoise3D c.1 c.2.1 c.2.2 (wrapInt (seed + 1)) - y)
  have nz := mul_self_nonneg
    ((c.2.2 : ℚ) + env.ValueNoise3D c.1 c.2.1 c.2.2 (wrapInt (seed + 2)) - z)
  have key : ∀ (a f : ℤ) (h p : ℚ), ¬ (f - 2 ≤ a ∧ a ≤ f + 2) → -1 ≤ h → h ≤ 1 → (f : ℚ) ≤ p →
      p < (f : ℚ) + 1 → 1 < ((a : ℚ) + h - p) * ((a : ℚ) + h - p) := by
    intro a f h p hout h0 h1 hp1 hp2
    apply sq_gt_one
    have hcases : a ≤ f - 3 ∨ f + 3 ≤ a := by omega
    rcases hcases with ha | ha
    · left
      have : (a : ℚ) ≤ (f : ℚ) - 3 := by exact_mod_cast ha
      linarith
    · right
      have : (f : ℚ) + 3 ≤ (a : ℚ) := by exact_mod_cast ha
      linarith
  simp only [sqDist, Voronoi.seedPos]
  simp only [Voronoi.inBlock, Bool.and_eq_false_iff, decide_eq_false_iff_not] at hc
  rcases hc with hc | hc | hc
  · have := key c.1 ⌊x⌋ _ x hc hX.1 hX.2 fx1 fx2
    linarith
  · have := key c.2.1 ⌊y⌋ _ y hc hY.1 hY.2 fy1 fy2
    linarith
  · have := key c.2.2 ⌊z⌋ _ z hc hZ.1 hZ.2 fz1 fz2
    linarith

/-- C9, amended.  For every seed, frequency and sample point whose scaled coordinates have
their floor at least `5` inside the `int` range, and every hash with values in `[-1, 1]`:
the 5×5×5 search of the code and the search over the 9×9×9 block both return, and they end
with the same squared distance and the same seed position whenever the 5×5×5 search ends
with a squared distance of at most `1` (every seed outside the block is farther than that),
and always when the hash values are in `[0, 1]` (each seed inside its own unit cube). -/
theorem Voronoi.nearestSeed_block_sufficient (env : Env) (seed : ℤ) (frequency x y z : ℚ)
    (hh : env.HashIn (-1) 1)
    (hp : Voronoi.PointInRange 5 (x * frequency) (y * frequency) (z * frequency)) :
    ∃ st2 st4 : Nearest,
      Voronoi.nearestSeed env seed 2 (x * frequency) (y * frequency) (z * frequency)
        = some st2 ∧
      Voronoi.nearestSeed env seed 4 (x * frequency) (y * frequency) (z * frequency)
        = some st4 ∧
      (st2.minDist ≤ 1 → st4 = st2) ∧
      (env.HashIn 0 1 → st4 = st2) ∧
      (∀ c ∈ Voronoi.cells 4 (x * frequency) (y * frequency) (z * frequency),
        Voronoi.inBlock (x * frequency) (y * frequency) (z * frequency) c = false →
        1 < sqDist (x * frequency) (y * frequency) (z * frequency)
          (Voronoi.seedPos env seed c)) := by
  have h2 := Voronoi.nearestSeed_eq_blockScan env seed 2 (x * frequency) (y * frequency)
    (z * frequency) (by norm_num) (pointInRange_mono 5 (2 + 1) (by norm_num) _ _ _ hp)
  have h4 := Voronoi.nearestSeed_eq_blockScan env seed 4 (x * frequency) (y * frequency)
    (z * frequency) (by norm_num) hp
  refine ⟨_, _, h2, h4, ?_, ?_,
    fun c _ hc => Voronoi.sqDist_outside env seed _ _ _ hh c hc⟩
  · intro hle
    rw [Voronoi.blockScan_eq_scan] at hle ⊢
    rw [Voronoi.blockScan_eq_scan, ← Voronoi.cells_filter_inBlock]
    rw [← Voronoi.cells_filter_inBlock] at hle
    have hrel := Voronoi.scan_filter_rel_strict env seed (x * frequency) (y * frequency)
      (z * frequency) (Voronoi.inBlock (x * frequency) (y * frequency) (z * frequency)) 1
      (Voronoi.cells 4 (x * frequency) (y * frequency) (z * frequency))
      (fun c _ hc => Voronoi.sqDist_outside env seed _ _ _ hh c hc)
      ⟨2147483647, none⟩ ⟨2147483647, none⟩ (Or.inl rfl)
    rcases hrel with h | ⟨_, h⟩
    · exact h
    · exact absurd hle (not_le.mpr h)
  · intro h01
    rw [Voronoi.blockScan_eq_scan, Voronoi.blockScan_eq_scan, ← Voronoi.cells_filter_inBlock]
    have hrel := Voronoi.scan_filter_rel env seed (x * frequency) (y * frequency) (z * frequency)
      (Voronoi.inBlock (x * frequency) (y * frequency) (z * frequency)) 4
      (Voronoi.cells 4 (x * frequency) (y * frequency) (z * frequency))
      (fun c _ hc => Voronoi.sqDist_far env seed _ _ _ h01 c hc)
      ⟨2147483647, none⟩ ⟨2147483647, none⟩ (Or.inl rfl)
    rcases hrel with h | ⟨_, h⟩
    · exact h
    · rw [Voronoi.cells_filter_inBlock] at h
      have h1 := Voronoi.scan_minDist_le env seed (x * frequency) (y * frequency) (z * frequency)
        ⟨2147483647, none⟩ _ _
        (Voronoi.floorCell_mem_cells 2 (by norm_num) (x * frequency) (y * frequency)
          (z * frequency))
      have h2 := Voronoi.sqDist_floorCell env seed (x * frequency) (y * frequency)
        (z * frequency) h01
      linarith

theorem floor_quarter_mul_two : ⌊((1 / 4 : ℚ) * 2)⌋ = 0 := by
  rw [Int.floor_eq_iff]
  norm_num

/-- Witness for C9 (amended): the hash that is `1/2` everywhere has its values in `[-1, 1]`
(and in `[0, 1]`), and for the point `(1/4, 1/4, 1/4)` at frequency `2`, inside the `int`
range, the searches of radius 2 and 4 return the same state. -/
theorem Voronoi.nearestSeed_block_sufficient_witness :
    (Env.ofHash fun _ _ _ _ => 1 / 2).HashIn (-1) 1 ∧
    Voronoi.PointInRange 5 ((1 / 4 : ℚ) * 2) (1 / 4 * 2) (1 / 4 * 2) ∧
    ∃ st : Nearest,
      Voronoi.nearestSeed (Env.ofHash fun _ _ _ _ => 1 / 2) 0 2 (1 / 4 * 2) (1 / 4 * 2)
        (1 / 4 * 2) = some st ∧
      Voronoi.nearestSeed (Env.ofHash fun _ _ _ _ => 1 / 2) 0 4 (1 / 4 * 2) (1 / 4 * 2)
        (1 / 4 * 2) = some st := by
  have hin : (Env.ofHash fun _ _ _ _ => 1 / 2).HashIn (-1) 1 := by
    intro x y z seed
    show (-1 : ℚ) ≤ 1 / 2 ∧ (1 / 2 : ℚ) ≤ 1
    norm_num
  have h01 : (Env.ofHash fun _ _ _ _ => 1 / 2).HashIn 0 1 := by
    intro x y z seed
    show (0 : ℚ) ≤ 1 / 2 ∧ (1 / 2 : ℚ) ≤ 1
    norm_num
  have hp : Voronoi.PointInRange 5 ((1 / 4 : ℚ) * 2) (1 / 4 * 2) (1 / 4 * 2) := by
    unfold Voronoi.PointInRange
    rw [floor_quarter_mul_two]
    omega
  obtain ⟨st2, st4, e2, e4, _, heq, _⟩ := Voronoi.nearestSeed_block_sufficient
    (Env.ofHash fun _ _ _ _ => 1 / 2) 0 2 (1 / 4) (1 / 4) (1 / 4) hin hp
  refine ⟨hin, hp, st2, e2, ?_⟩
  rw [e4, heq h01]

theorem pushOutHash_in : (Env.ofHash pushOutHash).HashIn (-1) 1 := by
  intro x y z seed
  show -1 ≤ pushOutHash x y z seed ∧ pushOutHash x y z seed ≤ 1
  unfold pushOutHash
  split_ifs <;> norm_num

theorem floor_half : ⌊(1 / 2 : ℚ)⌋ = 0 := by
  rw [Int.floor_eq_iff]
  norm_num

theorem pushOut_axis (a : ℤ) :
    (9 / 4 : ℚ) ≤ ((a : ℚ) + (if 1 ≤ a then (1 : ℚ) else -1) - 1 / 2) *
      ((a : ℚ) + (if 1 ≤ a then (1 : ℚ) else -1) - 1 / 2) := by
  split_ifs with h
  · have : (1 : ℚ) ≤ (a : ℚ) := by exact_mod_cast h
    nlinarith
  · have h2 : a ≤ 0 := by omega
    have : (a : ℚ) ≤ 0 := by exact_mod_cast h2
    nlinarith

theorem pushOut_far (c : ℤ × ℤ × ℤ) (hc : c ≠ (3, 0, 0)) :
    (27 / 4 : ℚ) ≤ sqDist (1 / 2) (1 / 2) (1 / 2)
      (Voronoi.seedPos (Env.ofHash pushOutHash) 0 c) := by
  obtain ⟨a, b, d⟩ := c
  have hne : ¬ (a = 3 ∧ b = 0 ∧ d = 0) := by
    rintro ⟨rfl, rfl, rfl⟩
    exact hc rfl
  have ha := pushOut_axis a
  have hb := pushOut_axis b
  have hd := pushOut_axis d
  simp only [sqDist, Voronoi.seedPos, Env.ofHash, pushOutHash, hne, if_false, wrapInt_small_one,
    wrapInt_small_two, if_true, one_ne_zero, show ((2 : ℤ) = 0) = False by norm_num,
    show ((2 : ℤ) = 1) = False by norm_num]
  linarith

theorem pushOut_near :
    Voronoi.seedPos (Env.ofHash pushOutHash) 0 (3, 0, 0) = (2, 1 / 2, 1 / 2) ∧
    sqDist (1 / 2) (1 / 2) (1 / 2) (Voronoi.seedPos (Env.ofHash pushOutHash) 0 (3, 0, 0))
      = 9 / 4 := by
  have h : Voronoi.seedPos (Env.ofHash pushOutHash) 0 (3, 0, 0) = (2, 1 / 2, 1 / 2) := by
    simp only [Voronoi.seedPos, Env.ofHash, pushOutHash, wrapInt_small_one, wrapInt_small_two]
    norm_num
  refine ⟨h, ?_⟩
  rw [h]
  norm_num [sqDist]

theorem pushOut_origin :
    sqDist (1 / 2) (1 / 2) (1 / 2) (Voronoi.seedPos (Env.ofHash pushOutHash) 0 (0, 0, 0))
      = 27 / 4 := by
  simp only [sqDist, Voronoi.seedPos, Env.ofHash, pushOutHash, wrapInt_small_one,
    wrapInt_small_two]
  norm_num

theorem pointInRange_half (m : ℤ) (h0 : 0 ≤ m) (h1 : m ≤ 2147483647) :
    Voronoi.PointInRange m (1 / 2 : ℚ) (1 / 2) (1 / 2) := by
  unfold Voronoi.PointInRange
  rw [floor_half]
  omega

/-- C9, counterexample.  The hash `pushOutHash` has its values in `[-1, 1]`.  With seed `0`
at the point `(1/2, 1/2, 1/2)` the 5×5×5 search ends at squared distance `27/4`, while the
9×9×9 search ends at squared distance `9/4` on the seed `(2, 1/2, 1/2)` of cell `(3, 0, 0)`,
which lies outside the 5×5×5 block. -/
theorem Voronoi.nearestSeed_block_insufficient :
    (Env.ofHash pushOutHash).HashIn (-1) 1 ∧
    (∃ st : Nearest,
      Voronoi.nearestSeed (Env.ofHash pushOutHash) 0 2 (1 / 2) (1 / 2) (1 / 2) = some st ∧
      st.minDist = 27 / 4) ∧
    Voronoi.nearestSeed (Env.ofHash pushOutHash) 0 4 (1 / 2) (1 / 2) (1 / 2)
      = some ⟨9 / 4, some (2, 1 / 2, 1 / 2)⟩ ∧
    Voronoi.nearestSeed (Env.ofHash pushOutHash) 0 2 (1 / 2) (1 / 2) (1 / 2) ≠
      Voronoi.nearestSeed (Env.ofHash pushOutHash) 0 4 (1 / 2) (1 / 2) (1 / 2) := by
  have hmem4 : ((3 : ℤ), (0 : ℤ), (0 : ℤ)) ∈ Voronoi.cells 4 (1 / 2) (1 / 2) (1 / 2) := by
    rw [mem_cells, floor_half]
    norm_num
  have hmem2 : ((0 : ℤ), (0 : ℤ), (0 : ℤ)) ∈ Voronoi.cells 2 (1 / 2) (1 / 2) (1 / 2) := by
    rw [mem_cells, floor_half]
    norm_num
  have n2 := Voronoi.nearestSeed_eq_blockScan (Env.ofHash pushOutHash) 0 2 (1 / 2) (1 / 2)
    (1 / 2) (by norm_num) (pointInRange_half (2 + 1) (by norm_num) (by norm_num))
  have n4 := Voronoi.nearestSeed_eq_blockScan (Env.ofHash pushOutHash) 0 4 (1 / 2) (1 / 2)
    (1 / 2) (by norm_num) (pointInRange_half (4 + 1) (by norm_num) (by norm_num))
  have e4 : Voronoi.blockScan (Env.ofHash pushOutHash) 0 4 (1 / 2) (1 / 2) (1 / 2)
      = ⟨9 / 4, some (2, 1 / 2, 1 / 2)⟩ := by
    obtain ⟨w, _, hw, hmin⟩ := Voronoi.blockScan_winner (Env.ofHash pushOutHash) 0 4
      (1 / 2) (1 / 2) (1 / 2) (3, 0, 0) hmem4 (by rw [pushOut_near.2]; norm_num)
    have hle := hmin _ hmem4
    rw [pushOut_near.2] at hle
    have hw3 : w = (3, 0, 0) := by
      by_contra hne
      have := pushOut_far w hne
      linarith
    rw [hw, hw3, pushOut_near.2, pushOut_near.1]
  have e2 : (Voronoi.blockScan (Env.ofHash pushOutHash) 0 2 (1 / 2) (1 / 2) (1 / 2)).minDist
      = 27 / 4 := by
    obtain ⟨w, hwmem, hw, hmin⟩ := Voronoi.blockScan_winner (Env.ofHash pushOutHash) 0 2
      (1 / 2) (1 / 2) (1 / 2) (0, 0, 0) hmem2 (by rw [pushOut_origin]; norm_num)
    have hle := hmin _ hmem2
    rw [pushOut_origin] at hle
    have hne : w ≠ (3, 0, 0) := by
      rintro rfl
      rw [mem_cells, floor_half] at hwmem
      norm_num at hwmem
    have hge := pushOut_far w hne
    rw [hw]
    exact le_antisymm hle hge
  refine ⟨pushOutHash_in, ⟨_, n2, e2⟩, by rw [n4, e4], ?_⟩
  rw [n2, n4]
  intro heq
  have h := Option.some.inj heq
  rw [h, e4] at e2
  norm_num at e2

/-- C10, counterexample.  With the hash `pushOutHash` (values in `[-1, 1]`), seed `0`,
frequency `1`, displacement `1` and distance enabled, at the point `(3000000000, 0, 0)` the
search visits no cell and ends with the sentinel and no winner; `GetValue` returns no
value, so no distance term `sqrt (min) * sqrt (3) - 1`. -/
theorem Voronoi.GetValue_no_distance_term_far :
    (Env.ofHash pushOutHash).HashIn (-1) 1 ∧
    Voronoi.nearestSeed (Env.ofHash pushOutHash) 0 2 (3000000000 * 1) (0 * 1) (0 * 1) =
      some ⟨2147483647, none⟩ ∧
    Voronoi.GetValue (Env.ofHash pushOutHash) ⟨1, 1, 0, true⟩ 3000000000 0 0 = none :=
  ⟨pushOutHash_in, Voronoi.nearestSeed_far _ 0, Voronoi.GetValue_far _ 1 0 true⟩

/-- C10, amended.  For a hash with values in `[-1, 1]`, every configuration, and every sample
point whose scaled coordinates have their floor at least `3` inside the `int` range: the
search over the 125 cells of the block ends with a tracked minimum `m` and a winner `w`,
where `m` is the least squared distance from the scaled sample point to the seeds of the
scanned cells and equals the squared distance recomputed from `w`; and `GetValue` is
`sqrt (m) * SQRT_3 - 1` when distance is enabled, `0` otherwise, plus the displacement term. -/
theorem Voronoi.GetValue_distance_term (env : Env) (v : Voronoi) (x y z : ℚ)
    (hh : env.HashIn (-1) 1)
    (hp : Voronoi.PointInRange 3 (x * v.m_frequency) (y * v.m_frequency) (z * v.m_frequency)) :
    ∃ (m : ℚ) (w : ℚ × ℚ × ℚ),
      Voronoi.nearestSeed env v.m_seed 2 (x * v.m_frequency) (y * v.m_frequency)
        (z * v.m_frequency) = some ⟨m, some w⟩ ∧
      (Voronoi.cells 2 (x * v.m_frequency) (y * v.m_frequency) (z * v.m_frequency)).length
        = 125 ∧
      (∃ c ∈ Voronoi.cells 2 (x * v.m_frequency) (y * v.m_frequency) (z * v.m_frequency),
        Voronoi.seedPos env v.m_seed c = w) ∧
      (∀ c ∈ Voronoi.cells 2 (x * v.m_frequency) (y * v.m_frequency) (z * v.m_frequency),
        m ≤ sqDist (x * v.m_frequency) (y * v.m_frequency) (z * v.m_frequency)
          (Voronoi.seedPos env v.m_seed c)) ∧
      sqDist (x * v.m_frequency) (y * v.m_frequency) (z * v.m_frequency) w = m ∧
      Voronoi.GetValue env v x y z =
        some ((if v.m_enableDistance then env.sqrt m * env.SQRT_3 - 1 else 0) +
          v.m_displacement * env.ValueNoise3D ⌊w.1⌋ ⌊w.2.1⌋ ⌊w.2.2⌋ env.defaultSeed) := by
  obtain ⟨c, hc, hn, hmin, hv⟩ := Voronoi.GetValue_in_range env v x y z hh hp
  refine ⟨_, _, hn, Voronoi.cells_length _ _ _, ⟨c, hc, rfl⟩, hmin, rfl, ?_⟩
  rw [hv]
  rfl

/-- Witness for C10 (amended): with the hash `pushOutHash` (values in `[-1, 1]`), seed `0`,
frequency `1`, displacement `1` and distance enabled, at the point `(1/2, 1/2, 1/2)`, inside
the `int` range, the tracked minimum is `27/4` and the value is
`sqrt (27/4) * SQRT_3 - 1` plus the displacement term. -/
theorem Voronoi.GetValue_distance_term_witness :
    (Env.ofHash pushOutHash).HashIn (-1) 1 ∧
    ∃ w : ℚ × ℚ × ℚ,
      Voronoi.GetValue (Env.ofHash pushOutHash) ⟨1, 1, 0, true⟩ (1 / 2) (1 / 2) (1 / 2) =
        some (((Env.ofHash pushOutHash).sqrt (27 / 4) * (Env.ofHash pushOutHash).SQRT_3 - 1) +
          1 * pushOutHash ⌊w.1⌋ ⌊w.2.1⌋ ⌊w.2.2⌋ 0) := by
  refine ⟨pushOutHash_in, ?_⟩
  have hp : Voronoi.PointInRange 3 ((1 / 2 : ℚ) * (⟨1, 1, 0, true⟩ : Voronoi).m_frequency)
      ((1 / 2 : ℚ) * (⟨1, 1, 0, true⟩ : Voronoi).m_frequency)
      ((1 / 2 : ℚ) * (⟨1, 1, 0, true⟩ : Voronoi).m_frequency) := by
    simp only [mul_one]
    exact pointInRange_half 3 (by norm_num) (by norm_num)
  obtain ⟨m, w, _, _, ⟨c, hc, hcw⟩, hmin, hm, hv⟩ := Voronoi.GetValue_distance_term
    (Env.ofHash pushOutHash) ⟨1, 1, 0, true⟩ (1 / 2) (1 / 2) (1 / 2) pushOutHash_in hp
  have hmem2 : ((0 : ℤ), (0 : ℤ), (0 : ℤ)) ∈ Voronoi.cells 2 (1 / 2) (1 / 2) (1 / 2) := by
    rw [mem_cells, floor_half]
    norm_num
  simp only [mul_one] at hc hcw hmin hm
  have hle := hmin _ hmem2
  rw [pushOut_origin] at hle
  have hne : c ≠ (3, 0, 0) := by
    rintro rfl
    rw [mem_cells, floor_half] at hc
    norm_num at hc
  have hge := pushOut_far c hne
  rw [hcw, hm] at hge
  have hm27 : m = 27 / 4 := le_antisymm hle hge
  refine ⟨w, ?_⟩
  rw [hv, hm27]
  rfl

/-! ## Voronoi: evaluation at a seed position -/

theorem sqDist_eq_zero (x y z : ℚ) (p : ℚ × ℚ × ℚ) (h : sqDist x y z p = 0) : p = (x, y, z) := by
  obtain ⟨a, b, c⟩ := p
  simp only [sqDist] at h
  have ha := mul_self_nonneg (a - x)
  have hb := mul_self_nonneg (b - y)
  have hc := mul_self_nonneg (c - z)
  have a0 : (a - x) * (a - x) = 0 := by linarith
  have b0 : (b - y) * (b - y) = 0 := by linarith
  have c0 : (c - z) * (c - z) = 0 := by linarith
  have a1 : a = x := by linarith [mul_self_eq_zero.mp a0]
  have b1 : b = y := by linarith [mul_self_eq_zero.mp b0]
  have c1 : c = z := by linarith [mul_self_eq_zero.mp c0]
  rw [a1, b1, c1]

theorem sqDist_self (x y z : ℚ) : sqDist x y z (x, y, z) = 0 := by
  simp only [sqDist]
  ring

theorem sqDist_nonneg (x y z : ℚ) (p : ℚ × ℚ × ℚ) : 0 ≤ sqDist x y z p := by
  simp only [sqDist]
  have ha := mul_self_nonneg (p.1 - x)
  have hb := mul_self_nonneg (p.2.1 - y)
  have hc := mul_self_nonneg (p.2.2 - z)
  linarith

/-- When a scanned cell has its seed exactly on the sample point, the search ends on that
position with distance zero. -/
theorem Voronoi.blockScan_at_seed (env : Env) (seed r : ℤ) (x y z : ℚ) (c : ℤ × ℤ × ℤ)
    (hc : c ∈ Voronoi.cells r x y z) (hp : Voronoi.seedPos env seed c = (x, y, z)) :
    Voronoi.blockScan env seed r x y z = ⟨0, some (x, y, z)⟩ := by
  have h0 : sqDist x y z (Voronoi.seedPos env seed c) = 0 := by rw [hp]; exact sqDist_self x y z
  obtain ⟨w, _, hw, hmin⟩ := Voronoi.blockScan_winner env seed r x y z c hc
    (by rw [h0]; norm_num)
  have hle := hmin c hc
  rw [h0] at hle
  have hw0 : sqDist x y z (Voronoi.seedPos env seed w) = 0 :=
    le_antisymm hle (sqDist_nonneg x y z _)
  rw [hw, hw0, sqDist_eq_zero x y z _ hw0]

theorem floor_int_add_bounds (a : ℤ) (h : ℚ) (h1 : -1 ≤ h) (h2 : h ≤ 1) :
    ⌊(a : ℚ) + h⌋ - 2 ≤ a ∧ a ≤ ⌊(a : ℚ) + h⌋ + 2 := by
  rw [Int.floor_int_add]
  have l1 : (-1 : ℤ) ≤ ⌊h⌋ := Int.le_floor.mpr (by exact_mod_cast h1)
  have l2 : ⌊h⌋ < 2 := Int.floor_lt.mpr (by
    have : h < 2 := by linarith
    exact_mod_cast this)
  omega

/-- With a hash in `[-1, 1]`, a cell lies in the 5×5×5 block around its own seed. -/
theorem Voronoi.mem_cells_own_seed (env : Env) (seed : ℤ) (hh : env.HashIn (-1) 1)
    (c : ℤ × ℤ × ℤ) :
    c ∈ Voronoi.cells 2 (Voronoi.seedPos env seed c).1 (Voronoi.seedPos env seed c).2.1
      (Voronoi.seedPos env seed c).2.2 := by
  rw [mem_cells]
  have hX := hh c.1 c.2.1 c.2.2 seed
  have hY := hh c.1 c.2.1 c.2.2 (wrapInt (seed + 1))
  have hZ := hh c.1 c.2.1 c.2.2 (wrapInt (seed + 2))
  exact ⟨floor_int_add_bounds _ _ hX.1 hX.2, floor_int_add_bounds _ _ hY.1 hY.2,
    floor_int_add_bounds _ _ hZ.1 hZ.2⟩

theorem floor_int_add_unit (a : ℤ) (h : ℚ) (h1 : 0 ≤ h) (h2 : h < 1) : ⌊(a : ℚ) + h⌋ = a := by
  rw [Int.floor_int_add]
  have : ⌊h⌋ = 0 := by
    rw [Int.floor_eq_iff]
    constructor
    · exact_mod_cast h1
    · simpa using h2
  omega

/-- With a hash in `[-1, 1]`, the seed of a cell that is at least `4` inside the `int` range
has its floor cell at least `3` inside it. -/
theorem Voronoi.pointInRange_own_seed (env : Env) (seed : ℤ) (hh : env.HashIn (-1) 1)
    (c : ℤ × ℤ × ℤ) (hc : Voronoi.CellInRange 4 c) :
    Voronoi.PointInRange 3 (Voronoi.seedPos env seed c).1 (Voronoi.seedPos env seed c).2.1
      (Voronoi.seedPos env seed c).2.2 := by
  obtain ⟨⟨x1, x2⟩, ⟨y1, y2⟩, ⟨z1, z2⟩⟩ := hc
  have hX := hh c.1 c.2.1 c.2.2 seed
  have hY := hh c.1 c.2.1 c.2.2 (wrapInt (seed + 1))
  have hZ := hh c.1 c.2.1 c.2.2 (wrapInt (seed + 2))
  have nx := floor_int_add_near c.1 _ hX.1 hX.2
  have ny := floor_int_add_near c.2.1 _ hY.1 hY.2
  have nz := floor_int_add_near c.2.2 _ hZ.1 hZ.2
  unfold Voronoi.PointInRange
  refine ⟨?_, ?_, ?_⟩
  · show -2147483648 + 3 ≤ ⌊(c.1 : ℚ) + _⌋ ∧ ⌊(c.1 : ℚ) + _⌋ + 3 ≤ 2147483647
    omega
  · show -2147483648 + 3 ≤ ⌊(c.2.1 : ℚ) + _⌋ ∧ ⌊(c.2.1 : ℚ) + _⌋ + 3 ≤ 2147483647
    omega
  · show -2147483648 + 3 ≤ ⌊(c.2.2 : ℚ) + _⌋ ∧ ⌊(c.2.2 : ℚ) + _⌋ + 3 ≤ 2147483647
    omega

/-- Value of the module of the end-to-end example (distance disabled, displacement `1`,
frequency `1`, seed `0`) at the seed position of a cell inside the `int` range. -/
theorem Voronoi.GetValue_seed_position (env : Env) (hh : env.HashIn (-1) 1) (c : ℤ × ℤ × ℤ)
    (hc : Voronoi.CellInRange 4 c) :
    Voronoi.GetValue env ⟨1, 1, 0, false⟩ (Voronoi.seedPos env 0 c).1
        (Voronoi.seedPos env 0 c).2.1 (Voronoi.seedPos env 0 c).2.2 =
      some (0 + 1 * env.ValueNoise3D ⌊(Voronoi.seedPos env 0 c).1⌋
        ⌊(Voronoi.seedPos env 0 c).2.1⌋ ⌊(Voronoi.seedPos env 0 c).2.2⌋ env.defaultSeed) := by
  have hmem := Voronoi.mem_cells_own_seed env 0 hh c
  have hp := Voronoi.pointInRange_own_seed env 0 hh c hc
  have hb := Voronoi.blockScan_at_seed env 0 2 _ _ _ c hmem rfl
  have hn := Voronoi.nearestSeed_eq_blockScan env 0 2 _ _ _ (by norm_num) hp
  rw [hb] at hn
  obtain ⟨f1, f2, f3⟩ := Voronoi.floorToInt_seedPos env 0 _ _ _ hh hp c hmem
  have hn2 : Voronoi.nearestSeed env (⟨1, 1, 0, false⟩ : Voronoi).m_seed 2
      ((Voronoi.seedPos env 0 c).1 * (⟨1, 1, 0, false⟩ : Voronoi).m_frequency)
      ((Voronoi.seedPos env 0 c).2.1 * (⟨1, 1, 0, false⟩ : Voronoi).m_frequency)
      ((Voronoi.seedPos env 0 c).2.2 * (⟨1, 1, 0, false⟩ : Voronoi).m_frequency) =
        some ⟨0, some (Voronoi.seedPos env 0 c)⟩ := by
    simp only [mul_one]
    exact hn
  rw [Voronoi.GetValue_of_candidate env _ _ _ _ _ _ hn2 rfl, f1, f2, f3]
  simp [Voronoi.distanceTerm]

/-- When the bounds of the `x` loop wrap so that the upper one is below the lower one, and
the `y` and `z` loops return, no cell is visited: the search ends with the sentinel and no
candidate. -/
theorem Voronoi.nearestSeed_no_scan (env : Env) (seed : ℤ) (x y z : ℚ)
    (hx : wrapInt (floorToInt x + 2) < wrapInt (floorToInt x - 2))
    (hy : wrapInt (floorToInt y + 2) < 2147483647)
    (hz : wrapInt (floorToInt z + 2) < 2147483647) :
    Voronoi.nearestSeed env seed 2 x y z = some ⟨2147483647, none⟩ := by
  simp only [Voronoi.nearestSeed]
  refine forInt_id (wrapInt (floorToInt z - 2)) (wrapInt (floorToInt z + 2)) hz _ ?_ _
  intro s _
  refine forInt_id (wrapInt (floorToInt y - 2)) (wrapInt (floorToInt y + 2)) hy _ ?_ _
  intro s2 _
  exact forInt_empty (wrapInt (floorToInt x - 2)) (wrapInt (floorToInt x + 2)) hx _ _

theorem leaveCellHash_in : (Env.ofHash leaveCellHash).HashIn (-1) 1 := by
  intro x y z seed
  show -1 ≤ leaveCellHash x y z seed ∧ leaveCellHash x y z seed ≤ 1
  unfold leaveCellHash
  split_ifs <;> norm_num

theorem floor_neg_half : ⌊(-1 / 2 : ℚ)⌋ = -1 := by
  rw [Int.floor_eq_iff]
  norm_num

theorem floor_int_max_quarter : ⌊((2147483647 + 1 / 4 : ℚ) * 1)⌋ = 2147483647 := by
  rw [Int.floor_eq_iff]
  norm_num

theorem floor_quarter_mul_one : ⌊((1 / 4 : ℚ) * 1)⌋ = 0 := by
  rw [Int.floor_eq_iff]
  norm_num

theorem Voronoi.nearestSeed_int_max (env : Env) (seed : ℤ) :
    Voronoi.nearestSeed env seed 2 ((2147483647 + 1 / 4) * 1) (1 / 4 * 1) (1 / 4 * 1) =
      some ⟨2147483647, none⟩ := by
  have fx : floorToInt ((2147483647 + 1 / 4 : ℚ) * 1) = 2147483647 := by
    unfold floorToInt
    rw [floor_int_max_quarter]
    norm_num
  have f0 : floorToInt ((1 / 4 : ℚ) * 1) = 0 := by
    unfold floorToInt
    rw [floor_quarter_mul_one]
    norm_num
  have w1 : wrapInt (2147483647 + 2) = -2147483647 := by norm_num [wrapInt]
  have w2 : wrapInt (2147483647 - 2) = 2147483645 := by norm_num [wrapInt]
  have w4 : wrapInt (0 + 2) = 2 := by norm_num [wrapInt]
  refine Voronoi.nearestSeed_no_scan env seed _ _ _ ?_ ?_ ?_
  · rw [fx, w1, w2]
    norm_num
  · rw [f0, w4]
    norm_num
  · rw [f0, w4]
    norm_num

/-- C11, counterexample.  With the hash `leaveCellHash` (values in `[-1, 1]`) the seed of cell
`(0, 0, 0)` is `(-1/2, -1/2, -1/2)`, which lies in cell `(-1, -1, -1)`.  The module with
distance disabled, displacement `1`, frequency `1`, seed `0` returns there the hash of cell
`(-1, -1, -1)`, `1/4`, and not the hash of cell `(0, 0, 0)`, `-1/2`.  At the seed
`(2147483647 + 1/4, 1/4, 1/4)` of the cell `(2147483647, 0, 0)`, at the end of the `int`
range, the module returns no value. -/
theorem Voronoi.GetValue_own_seed_other_cell :
    (Env.ofHash leaveCellHash).HashIn (-1) 1 ∧
    Voronoi.seedPos (Env.ofHash leaveCellHash) 0 (0, 0, 0) = (-1 / 2, -1 / 2, -1 / 2) ∧
    Voronoi.GetValue (Env.ofHash leaveCellHash) ⟨1, 1, 0, false⟩ (-1 / 2) (-1 / 2) (-1 / 2)
      = some (1 / 4) ∧
    1 * (Env.ofHash leaveCellHash).ValueNoise3D 0 0 0 0 = -1 / 2 ∧
    Voronoi.GetValue (Env.ofHash leaveCellHash) ⟨1, 1, 0, false⟩ (-1 / 2) (-1 / 2) (-1 / 2)
      ≠ some (1 * (Env.ofHash leaveCellHash).ValueNoise3D 0 0 0 0) ∧
    Voronoi.seedPos (Env.ofHash leaveCellHash) 0 (2147483647, 0, 0)
      = (2147483647 + 1 / 4, 1 / 4, 1 / 4) ∧
    Voronoi.GetValue (Env.ofHash leaveCellHash) ⟨1, 1, 0, false⟩ (2147483647 + 1 / 4) (1 / 4)
      (1 / 4) = none := by
  have hp : Voronoi.seedPos (Env.ofHash leaveCellHash) 0 (0, 0, 0) = (-1 / 2, -1 / 2, -1 / 2) := by
    simp only [Voronoi.seedPos, Env.ofHash, leaveCellHash]
    norm_num
  have hcell : Voronoi.CellInRange 4 ((0 : ℤ), (0 : ℤ), (0 : ℤ)) := by
    unfold Voronoi.CellInRange
    norm_num
  have hv := Voronoi.GetValue_seed_position (Env.ofHash leaveCellHash) leaveCellHash_in
    (0, 0, 0) hcell
  rw [hp] at hv
  simp only [floor_neg_half] at hv
  have hval : Voronoi.GetValue (Env.ofHash leaveCellHash) ⟨1, 1, 0, false⟩ (-1 / 2) (-1 / 2)
      (-1 / 2) = some (1 / 4) := by
    rw [hv]
    simp only [Env.ofHash, leaveCellHash]
    norm_num
  have hc : 1 * (Env.ofHash leaveCellHash).ValueNoise3D 0 0 0 0 = -1 / 2 := by
    simp only [Env.ofHash, leaveCellHash]
    norm_num
  have hp2 : Voronoi.seedPos (Env.ofHash leaveCellHash) 0 (2147483647, 0, 0)
      = (2147483647 + 1 / 4, 1 / 4, 1 / 4) := by
    simp only [Voronoi.seedPos, Env.ofHash, leaveCellHash]
    norm_num
  refine ⟨leaveCellHash_in, hp, hval, hc, ?_, hp2, ?_⟩
  · rw [hval, hc]
    norm_num
  · exact Voronoi.GetValue_of_no_candidate (Env.ofHash leaveCellHash) ⟨1, 1, 0, false⟩
      (2147483647 + 1 / 4) (1 / 4) (1 / 4) ⟨2147483647, none⟩
      (Voronoi.nearestSeed_int_max _ 0) rfl

/-- C11, amended.  For a hash with values in `[-1, 1]` whose default seed is `0`, and every
lattice cell `c` with coordinates at least `4` inside the `int` range, the module with
distance disabled, displacement `1`, frequency `1`, seed `0`, evaluated at the seed position
`p = c + (hash (c, 0), hash (c, 1), hash (c, 2))`, returns `0 + 1 * hash (floor (p), 0)`: no
distance contribution, and the hash of the cell that contains `p`.  When the seed lies in
its own cell (`0 ≤ hash (c, k) < 1` for `k = 0, 1, 2`) this is `hash (c, 0)`. -/
theorem Voronoi.GetValue_at_own_seed (env : Env) (hh : env.HashIn (-1) 1)
    (hd : env.defaultSeed = 0) (c : ℤ × ℤ × ℤ) (hc : Voronoi.CellInRange 4 c) :
    Voronoi.seedPos env 0 c =
      ((c.1 : ℚ) + env.ValueNoise3D c.1 c.2.1 c.2.2 0,
       (c.2.1 : ℚ) + env.ValueNoise3D c.1 c.2.1 c.2.2 1,
       (c.2.2 : ℚ) + env.ValueNoise3D c.1 c.2.1 c.2.2 2) ∧
    Voronoi.GetValue env ⟨1, 1, 0, false⟩ (Voronoi.seedPos env 0 c).1
        (Voronoi.seedPos env 0 c).2.1 (Voronoi.seedPos env 0 c).2.2 =
      some (0 + 1 * env.ValueNoise3D ⌊(Voronoi.seedPos env 0 c).1⌋
        ⌊(Voronoi.seedPos env 0 c).2.1⌋ ⌊(Voronoi.seedPos env 0 c).2.2⌋ 0) ∧
    ((∀ k : ℤ, 0 ≤ k → k ≤ 2 →
        0 ≤ env.ValueNoise3D c.1 c.2.1 c.2.2 k ∧ env.ValueNoise3D c.1 c.2.1 c.2.2 k < 1) →
      Voronoi.GetValue env ⟨1, 1, 0, false⟩ (Voronoi.seedPos env 0 c).1
          (Voronoi.seedPos env 0 c).2.1 (Voronoi.seedPos env 0 c).2.2 =
        some (env.ValueNoise3D c.1 c.2.1 c.2.2 0)) := by
  have hpos : Voronoi.seedPos env 0 c =
      ((c.1 : ℚ) + env.ValueNoise3D c.1 c.2.1 c.2.2 0,
       (c.2.1 : ℚ) + env.ValueNoise3D c.1 c.2.1 c.2.2 1,
       (c.2.2 : ℚ) + env.ValueNoise3D c.1 c.2.1 c.2.2 2) := by
    simp only [Voronoi.seedPos, wrapInt_small_one, wrapInt_small_two]
  have hv := Voronoi.GetValue_seed_position env hh c hc
  rw [hd] at hv
  refine ⟨hpos, hv, fun hin => ?_⟩
  rw [hv]
  have h0 := hin 0 (by norm_num) (by norm_num)
  have h1 := hin 1 (by norm_num) (by norm_num)
  have h2 := hin 2 (by norm_num) (by norm_num)
  have f0 : ⌊(Voronoi.seedPos env 0 c).1⌋ = c.1 := by
    rw [hpos]; exact floor_int_add_unit _ _ h0.1 h0.2
  have f1 : ⌊(Voronoi.seedPos env 0 c).2.1⌋ = c.2.1 := by
    rw [hpos]; exact floor_int_add_unit _ _ h1.1 h1.2
  have f2 : ⌊(Voronoi.seedPos env 0 c).2.2⌋ = c.2.2 := by
    rw [hpos]; exact floor_int_add_unit _ _ h2.1 h2.2
  rw [f0, f1, f2]
  norm_num

/-- Witness for C11 (amended): the hash that is `1/2` everywhere has its values in `[-1, 1]`
and in `[0, 1)`, the default seed is `0` and the cell `(0, 0, 0)` is inside the `int` range;
at its seed `(1/2, 1/2, 1/2)` the module returns `1/2`. -/
theorem Voronoi.GetValue_at_own_seed_witness :
    (Env.ofHash fun _ _ _ _ => 1 / 2).HashIn (-1) 1 ∧
    (Env.ofHash fun _ _ _ _ => 1 / 2).defaultSeed = 0 ∧
    Voronoi.CellInRange 4 ((0 : ℤ), (0 : ℤ), (0 : ℤ)) ∧
    Voronoi.GetValue (Env.ofHash fun _ _ _ _ => 1 / 2) ⟨1, 1, 0, false⟩
      (Voronoi.seedPos (Env.ofHash fun _ _ _ _ => 1 / 2) 0 (0, 0, 0)).1
      (Voronoi.seedPos (Env.ofHash fun _ _ _ _ => 1 / 2) 0 (0, 0, 0)).2.1
      (Voronoi.seedPos (Env.ofHash fun _ _ _ _ => 1 / 2) 0 (0, 0, 0)).2.2 = some (1 / 2) := by
  have hin : (Env.ofHash fun _ _ _ _ => 1 / 2).HashIn (-1) 1 := by
    intro x y z seed
    show (-1 : ℚ) ≤ 1 / 2 ∧ (1 / 2 : ℚ) ≤ 1
    norm_num
  have hcell : Voronoi.CellInRange 4 ((0 : ℤ), (0 : ℤ), (0 : ℤ)) := by
    unfold Voronoi.CellInRange
    norm_num
  refine ⟨hin, rfl, hcell, ?_⟩
  exact (Voronoi.GetValue_at_own_seed (Env.ofHash fun _ _ _ _ => 1 / 2) hin rfl (0, 0, 0)
    hcell).2.2
    (fun k _ _ => by
      show (0 : ℚ) ≤ 1 / 2 ∧ (1 / 2 : ℚ) < 1
      norm_num)

/-! ## Select: sign of the stored falloff -/

theorem Select.call_nonneg (s : Select) (c : SelectCall) (hc : c.NonNeg)
    (h : 0 ≤ s.m_edgeFalloff ∧ s.m_lowerBound < s.m_upperBound) :
    0 ≤ (s.call c).m_edgeFalloff ∧ (s.call c).m_lowerBound < (s.call c).m_upperBound := by
  cases c with
  | setBounds l u =>
    show 0 ≤ (s.SetBounds l u).2.m_edgeFalloff ∧
      (s.SetBounds l u).2.m_lowerBound < (s.SetBounds l u).2.m_upperBound
    unfold Select.SetBounds
    by_cases hlu : l < u
    · rw [if_pos hlu]
      simp only [Select.SetEdgeFalloff]
      refine ⟨?_, hlu⟩
      split_ifs
      · linarith
      · exact h.1
    · rw [if_neg hlu]
      exact h
  | setEdgeFalloff e =>
    show 0 ≤ (s.SetEdgeFalloff e).m_edgeFalloff ∧
      (s.SetEdgeFalloff e).m_lowerBound < (s.SetEdgeFalloff e).m_upperBound
    simp only [Select.SetEdgeFalloff]
    refine ⟨?_, h.2⟩
    split_ifs
    · linarith [h.2]
    · exact hc

/-- C12, counterexample.  From the state with bounds `-1`, `1` and falloff `0` (falloff not
negative, bounds ordered), the call `SetEdgeFalloff (-1)` stores the falloff `-1`. -/
theorem Select.SetEdgeFalloff_stores_negative :
    0 ≤ (Select.bound (fun _ _ _ => 0) (fun _ _ _ => 0) (fun _ _ _ => 0) (-1) 1 0).m_edgeFalloff ∧
    (Select.bound (fun _ _ _ => 0) (fun _ _ _ => 0) (fun _ _ _ => 0) (-1) 1 0).m_lowerBound <
      (Select.bound (fun _ _ _ => 0) (fun _ _ _ => 0) (fun _ _ _ => 0) (-1) 1 0).m_upperBound ∧
    ((Select.bound (fun _ _ _ => 0) (fun _ _ _ => 0) (fun _ _ _ => 0) (-1) 1 0).calls
      [.setEdgeFalloff (-1)]).m_edgeFalloff = -1 ∧
    ¬ 0 ≤ ((Select.bound (fun _ _ _ => 0) (fun _ _ _ => 0) (fun _ _ _ => 0) (-1) 1 0).calls
      [.setEdgeFalloff (-1)]).m_edgeFalloff := by
  have h : ((Select.bound (fun _ _ _ => 0) (fun _ _ _ => 0) (fun _ _ _ => 0) (-1) 1 0).calls
      [.setEdgeFalloff (-1)]).m_edgeFalloff = -1 := by
    simp only [Select.calls, List.foldl_cons, List.foldl_nil, Select.call, Select.SetEdgeFalloff,
      Select.bound]
    norm_num
  refine ⟨?_, ?_, h, ?_⟩
  · norm_num [Select.bound]
  · norm_num [Select.bound]
  · rw [h]; norm_num

/-- C12, amended.  From a state with `edgeFalloff ≥ 0` and `lowerBound < upperBound`, every
sequence of `SetBounds` calls and of `SetEdgeFalloff (v)` calls with `v ≥ 0` ends in a state
with `edgeFalloff ≥ 0` (and ordered bounds). -/
theorem Select.edgeFalloff_nonneg (s : Select) (cs : List SelectCall)
    (h0 : 0 ≤ s.m_edgeFalloff) (hlt : s.m_lowerBound < s.m_upperBound)
    (hcs : ∀ c ∈ cs, c.NonNeg) :
    0 ≤ (s.calls cs).m_edgeFalloff ∧ (s.calls cs).m_lowerBound < (s.calls cs).m_upperBound := by
  unfold Select.calls
  induction cs generalizing s with
  | nil => exact ⟨h0, hlt⟩
  | cons c cs ih =>
    have hc := Select.call_nonneg s c (hcs c (List.mem_cons_self c cs)) ⟨h0, hlt⟩
    exact ih (s.call c) hc.1 hc.2 (fun d hd => hcs d (List.mem_cons_of_mem c hd))

/-- Witness for C12 (amended): from bounds `-1`, `1` with falloff `0`, the calls
`SetEdgeFalloff (5)`, `SetBounds (0, 1/2)`, `SetEdgeFalloff (0)` end with a falloff that is
not negative. -/
theorem Select.edgeFalloff_nonneg_witness :
    0 ≤ ((Select.bound (fun _ _ _ => 0) (fun _ _ _ => 0) (fun _ _ _ => 0) (-1) 1 0).calls
      [.setEdgeFalloff 5, .setBounds 0 (1 / 2), .setEdgeFalloff 0]).m_edgeFalloff :=
  (Select.edgeFalloff_nonneg
    (Select.bound (fun _ _ _ => 0) (fun _ _ _ => 0) (fun _ _ _ => 0) (-1) 1 0)
    [.setEdgeFalloff 5, .setBounds 0 (1 / 2), .setEdgeFalloff 0]
    (by norm_num [Select.bound]) (by norm_num [Select.bound])
    (by
      intro c hc
      simp only [List.mem_cons, List.mem_singleton, List.not_mem_nil, or_false] at hc
      rcases hc with rfl | rfl | rfl
      · show (0 : ℚ) ≤ 5
        norm_num
      · trivial
      · show (0 : ℚ) ≤ 0
        norm_num)).1

/-! ## Blend: the control module accessors -/

/-- C13.  On a `Blend` whose slot array exists, `SetControlModule (c)` succeeds, leaves `c`
in slot 2 and slots 0 and 1 as they were, ends in the same state as `SetSourceModule (2, c)`,
and `GetControlModule` then returns `c`. -/
theorem Blend.SetControlModule_spec (b : Blend) (slots : Fin 3 → Option Module) (c : Module)
    (hb : b.m_pSourceModule = some slots) :
    (b.SetControlModule c).1 = .ok () ∧
    (∃ slots2 : Fin 3 → Option Module,
      (b.SetControlModule c).2.m_pSourceModule = some slots2 ∧
      slots2 2 = some c ∧ slots2 0 = slots 0 ∧ slots2 1 = slots 1) ∧
    b.SetControlModule c = b.SetSourceModule 2 c ∧
    (b.SetControlModule c).2.GetControlModule = .ok c := by
  refine ⟨?_, ?_, ?_, ?_⟩
  · simp only [Blend.SetControlModule, hb]
  · refine ⟨Function.update slots 2 (some c), ?_, ?_, ?_, ?_⟩
    · simp only [Blend.SetControlModule, hb]
    · exact Function.update_same _ _ _
    · exact Function.update_noteq (by decide) _ _
    · exact Function.update_noteq (by decide) _ _
  · have h2 : (0 : ℤ) ≤ 2 ∧ (2 : ℤ) < b.GetSourceModuleCount := by
      constructor
      · norm_num
      · show (2 : ℤ) < 3
        norm_num
    simp only [Blend.SetControlModule, Blend.SetSourceModule, hb, dif_pos h2]
    rfl
  · simp only [Blend.SetControlModule, hb, Blend.GetControlModule, Function.update_same]

/-- Witness for C13: on the `Blend` with an array of three unbound slots,
`SetControlModule` of the constant module `7` is `SetSourceModule (2, ·)` and the control
module read back evaluates to `7`. -/
theorem Blend.SetControlModule_spec_witness :
    (Blend.ofSlots none none none).SetControlModule (fun _ _ _ => 7) =
      (Blend.ofSlots none none none).SetSourceModule 2 (fun _ _ _ => 7) ∧
    ((Blend.ofSlots none none none).SetControlModule (fun _ _ _ => 7)).2.GetControlModule
      = .ok (fun _ _ _ => 7) :=
  ⟨(Blend.SetControlModule_spec (Blend.ofSlots none none none) _ (fun _ _ _ => 7) rfl).2.2.1,
    (Blend.SetControlModule_spec (Blend.ofSlots none none none) _ (fun _ _ _ => 7) rfl).2.2.2⟩

/-- C14.  `Blend::GetControlModule` raises `ExceptionNoModule` exactly when the slot array
is absent or slot 2 is unbound; when slot 2 holds a module it returns that module, whatever
slots 0 and 1 hold. -/
theorem Blend.GetControlModule_spec (b : Blend) :
    (b.GetControlModule = .error .exceptionNoModule ↔
      (b.m_pSourceModule = none ∨
        ∃ slots : Fin 3 → Option Module, b.m_pSourceModule = some slots ∧ slots 2 = none)) ∧
    (∀ (slots : Fin 3 → Option Module) (m : Module),
      b.m_pSourceModule = some slots → slots 2 = some m → b.GetControlModule = .ok m) ∧
    (∀ e : Failure, b.GetControlModule = .error e → e = .exceptionNoModule) := by
  obtain ⟨arr⟩ := b
  cases arr with
  | none =>
    refine ⟨⟨fun _ => Or.inl rfl, fun _ => rfl⟩, ?_, ?_⟩
    · intro slots m h
      exact absurd h (by simp)
    · intro e he
      simp only [Blend.GetControlModule] at he
      exact (Except.error.inj he).symm
  | some slots =>
    cases h2 : slots 2 with
    | none =>
      refine ⟨⟨fun _ => Or.inr ⟨slots, rfl, h2⟩, fun _ => ?_⟩, ?_, ?_⟩
      · simp only [Blend.GetControlModule, h2]
      · intro slots2 m h hm
        have hs : slots = slots2 := Option.some.inj h
        rw [← hs, h2] at hm
        exact absurd hm (by simp)
      · intro e he
        simp only [Blend.GetControlModule, h2] at he
        exact (Except.error.inj he).symm
    | some m0 =>
      refine ⟨⟨fun h => ?_, fun h => ?_⟩, ?_, ?_⟩
      · simp only [Blend.GetControlModule, h2] at h
        exact absurd h (by simp)
      · rcases h with h | ⟨slots2, h, hn⟩
        · exact absurd h (by simp)
        · have hs : slots = slots2 := Option.some.inj h
          rw [← hs, h2] at hn
          exact absurd hn (by simp)
      · intro slots2 m h hm
        have hs : slots = slots2 := Option.some.inj h
        rw [← hs, h2] at hm
        have hmm : m0 = m := Option.some.inj hm
        simp only [Blend.GetControlModule, h2, hmm]
      · intro e he
        simp only [Blend.GetControlModule, h2] at he
        exact absurd he (by simp)

/-- Witness for C14: with slots 0 and 1 unbound and the constant module `7` in slot 2 the
control module is returned; with slot 2 unbound (slots 0 and 1 bound) the call raises
`ExceptionNoModule`. -/
theorem Blend.GetControlModule_spec_witness :
    (Blend.ofSlots none none (some fun _ _ _ => 7)).GetControlModule = .ok (fun _ _ _ => 7) ∧
    (Blend.ofSlots (some fun _ _ _ => 0) (some fun _ _ _ => 1) none).GetControlModule
      = .error .exceptionNoModule :=
  ⟨(Blend.GetControlModule_spec (Blend.ofSlots none none (some fun _ _ _ => 7))).2.1 _ _ rfl rfl,
    (Blend.GetControlModule_spec
      (Blend.ofSlots (some fun _ _ _ => 0) (some fun _ _ _ => 1) none)).1.mpr
      (Or.inr ⟨_, rfl, rfl⟩)⟩

/-! ## Select: evaluation with a missing source -/

/-- C15, counterexample.  `Select::GetValue` on a `Select` with no slot bound fails by
assertion; the failure is not `ExceptionNoModule`, the error that `GetControlModule` raises
on a `Blend` with no slot bound. -/
theorem Select.GetValue_unbound_asserts :
    (Select.unbound (-1) 1 0).GetValue 0 0 0 = .error .assertionFailed ∧
    (Select.unbound (-1) 1 0).GetValue 0 0 0 ≠ .error .exceptionNoModule ∧
    (Blend.ofSlots none none none).GetControlModule = .error .exceptionNoModule := by
  have h : (Select.unbound (-1) 1 0).GetValue 0 0 0 = .error .assertionFailed := rfl
  refine ⟨h, ?_, rfl⟩
  rw [h]
  intro hne
  exact Failure.noConfusion (Except.error.inj hne)

/-- C15, amended.  For every coordinate, `Select::GetValue` on a `Select` in which at least
one of slots 0, 1, 2 is unbound returns no value: it fails on the `assert` at the head of
the function (a fail-fast abort, not the catchable `ExceptionNoModule`). -/
theorem Select.GetValue_missing_source (s : Select) (x y z : ℚ)
    (h : s.m_pSourceModule 0 = none ∨ s.m_pSourceModule 1 = none ∨ s.m_pSourceModule 2 = none) :
    s.GetValue x y z = .error .assertionFailed := by
  unfold Select.GetValue
  cases h0 : s.m_pSourceModule 0 with
  | none => rfl
  | some m0 =>
    cases h1 : s.m_pSourceModule 1 with
    | none => rfl
    | some m1 =>
      cases h2 : s.m_pSourceModule 2 with
      | none => rfl
      | some m2 =>
        rcases h with h | h | h
        · rw [h0] at h; exact absurd h (by simp)
        · rw [h1] at h; exact absurd h (by simp)
        · rw [h2] at h; exact absurd h (by simp)

/-- Witness for C15 (amended): with slots 0 and 1 bound and the control slot unbound,
evaluation fails by assertion. -/
theorem Select.GetValue_missing_source_witness :
    (Select.mk (fun i => if i = 2 then none else some fun _ _ _ => 0) (-1) 1 0).GetValue 0 0 0
      = .error .assertionFailed :=
  Select.GetValue_missing_source _ 0 0 0 (Or.inr (Or.inr rfl))

/-! ## Blend: evaluation -/

/-- C16.  For a `Blend` with its three slots bound and source values `s0 < s1`, the output
is the linear interpolation `(1 - w) * s0 + w * s1` with the weight `w = (control + 1) / 2`;
the interpolation is non-decreasing in the weight, is `s0` at weight `0` and `s1` at weight
`1`; a control value in `[-1, 1]` gives a weight in `[0, 1]`; a negative control value puts
the output nearer to `s0`, a positive one nearer to `s1`. -/
theorem Blend.GetValue_bias (b : Blend) (slots : Fin 3 → Option Module) (m0 m1 m2 : Module)
    (hb : b.m_pSourceModule = some slots) (h0 : slots 0 = some m0) (h1 : slots 1 = some m1)
    (h2 : slots 2 = some m2) (x y z : ℚ) (hlt : m0 x y z < m1 x y z) :
    b.GetValue x y z =
      .ok ((1 - (m2 x y z + 1) / 2) * m0 x y z + (m2 x y z + 1) / 2 * m1 x y z) ∧
    (∀ w1 w2 : ℚ, w1 ≤ w2 →
      LinearInterp (m0 x y z) (m1 x y z) w1 ≤ LinearInterp (m0 x y z) (m1 x y z) w2) ∧
    LinearInterp (m0 x y z) (m1 x y z) 0 = m0 x y z ∧
    LinearInterp (m0 x y z) (m1 x y z) 1 = m1 x y z ∧
    (-1 ≤ m2 x y z → m2 x y z ≤ 1 → 0 ≤ (m2 x y z + 1) / 2 ∧ (m2 x y z + 1) / 2 ≤ 1) ∧
    (m2 x y z < 0 →
      LinearInterp (m0 x y z) (m1 x y z) ((m2 x y z + 1) / 2) - m0 x y z <
        m1 x y z - LinearInterp (m0 x y z) (m1 x y z) ((m2 x y z + 1) / 2)) ∧
    (0 < m2 x y z →
      m1 x y z - LinearInterp (m0 x y z) (m1 x y z) ((m2 x y z + 1) / 2) <
        LinearInterp (m0 x y z) (m1 x y z) ((m2 x y z + 1) / 2) - m0 x y z) := by
  have hd : 0 < m1 x y z - m0 x y z := by linarith
  refine ⟨?_, ?_, ?_, ?_, ?_, ?_, ?_⟩
  · simp only [Blend.GetValue, hb, h0, h1, h2, LinearInterp]
  · intro w1 w2 hw
    simp only [LinearInterp]
    nlinarith
  · simp only [LinearInterp]; ring
  · simp only [LinearInterp]; ring
  · intro ha hb2
    constructor
    · linarith
    · linarith
  · intro hneg
    simp only [LinearInterp]
    nlinarith
  · intro hpos
    simp only [LinearInterp]
    nlinarith

/-- Witness for C16: sources constant `0` and `4`; control `-1/2` gives weight `1/4` and
output `1`, control `1` gives output `4`. -/
theorem Blend.GetValue_bias_witness :
    (Blend.ofSlots (some fun _ _ _ => 0) (some fun _ _ _ => 4)
      (some fun _ _ _ => -1 / 2)).GetValue 0 0 0 = .ok 1 ∧
    (Blend.ofSlots (some fun _ _ _ => 0) (some fun _ _ _ => 4)
      (some fun _ _ _ => 1)).GetValue 0 0 0 = .ok 4 := by
  constructor
  · rw [(Blend.GetValue_bias
      (Blend.ofSlots (some fun _ _ _ => 0) (some fun _ _ _ => 4) (some fun _ _ _ => -1 / 2))
      _ (fun _ _ _ => 0) (fun _ _ _ => 4) (fun _ _ _ => -1 / 2)
      rfl rfl rfl rfl 0 0 0 (by norm_num)).1]
    norm_num
  · rw [(Blend.GetValue_bias
      (Blend.ofSlots (some fun _ _ _ => 0) (some fun _ _ _ => 4) (some fun _ _ _ => 1))
      _ (fun _ _ _ => 0) (fun _ _ _ => 4) (fun _ _ _ => 1)
      rfl rfl rfl rfl 0 0 0 (by norm_num)).1]
    norm_num

/-! ## Voronoi: frequency -/

/-- C18.  `Voronoi::GetValue` at `(x, y, z)` with frequency `f` equals `GetValue` at
`(f * x, f * y, f * z)` of the same module with frequency `1`; more generally two modules
that differ in frequency only return the same value at points whose scaled coordinates
agree. -/
theorem Voronoi.GetValue_frequency_scaling (env : Env) (v : Voronoi) (x y z : ℚ) :
    Voronoi.GetValue env v x y z =
      Voronoi.GetValue env { v with m_frequency := 1 } (v.m_frequency * x) (v.m_frequency * y)
        (v.m_frequency * z) ∧
    (∀ (g x2 y2 z2 : ℚ), x2 * g = x * v.m_frequency → y2 * g = y * v.m_frequency →
      z2 * g = z * v.m_frequency →
      Voronoi.GetValue env { v with m_frequency := g } x2 y2 z2 = Voronoi.GetValue env v x y z) := by
  constructor
  · simp only [Voronoi.GetValue, mul_one, mul_comm v.m_frequency]
  · intro g x2 y2 z2 hx hy hz
    simp only [Voronoi.GetValue]
    rw [hx, hy, hz]

/-- Witness for C18: the point `(1, 2, 3)` at frequency `2` and the point `(4, 8, 12)` at
frequency `1/2` have the same scaled coordinates, so the two modules agree there. -/
theorem Voronoi.GetValue_frequency_scaling_witness :
    Voronoi.GetValue (Env.ofHash seedOnlyHash) ⟨1, 1 / 2, 0, true⟩ 4 8 12 =
      Voronoi.GetValue (Env.ofHash seedOnlyHash) ⟨1, 2, 0, true⟩ 1 2 3 :=
  (Voronoi.GetValue_frequency_scaling (Env.ofHash seedOnlyHash) ⟨1, 2, 0, true⟩ 1 2 3).2
    (1 / 2) 4 8 12 (by norm_num) (by norm_num) (by norm_num)

/-! ## Select: range of the output -/

theorem SCurve3_unit (t : ℚ) (h0 : 0 ≤ t) (h1 : t ≤ 1) : 0 ≤ SCurve3 t ∧ SCurve3 t ≤ 1 := by
  unfold SCurve3
  have ht := mul_self_nonneg t
  have hu := mul_self_nonneg (1 - t)
  constructor
  · have : 0 ≤ 3 - 2 * t := by linarith
    exact mul_nonneg ht this
  · have hp : 0 ≤ (1 - t) * (1 - t) * (1 + 2 * t) := mul_nonneg hu (by linarith)
    nlinarith

theorem LinearInterp_between (a b w : ℚ) (h0 : 0 ≤ w) (h1 : w ≤ 1) :
    min a b ≤ LinearInterp a b w ∧ LinearInterp a b w ≤ max a b := by
  unfold LinearInterp
  rcases le_total a b with hab | hab
  · rw [min_eq_left hab, max_eq_right hab]
    constructor <;> nlinarith
  · rw [min_eq_right hab, max_eq_left hab]
    constructor <;> nlinarith

theorem band_position (v c e : ℚ) (he : 0 < e) (hlo : c - e ≤ v) (hhi : v < c + e) :
    0 ≤ (v - (c - e)) / ((c + e) - (c - e)) ∧ (v - (c - e)) / ((c + e) - (c - e)) ≤ 1 := by
  have hw : (c + e) - (c - e) = 2 * e := by ring
  rw [hw]
  have h2 : (0 : ℚ) < 2 * e := by linarith
  constructor
  · exact div_nonneg (by linarith) (le_of_lt h2)
  · rw [div_le_one h2]
    linarith

/-- C19.  For every `Select` state with bound sources (any bounds, any falloff) and every
coordinate, `GetValue` returns a value between the two source values, in
`[min (s0, s1), max (s0, s1)]`; in both transition bands the smoothstep weight is in `[0, 1]`. -/
theorem Select.GetValue_between_sources (s : Select) (m0 m1 m2 : Module)
    (h0 : s.m_pSourceModule 0 = some m0) (h1 : s.m_pSourceModule 1 = some m1)
    (h2 : s.m_pSourceModule 2 = some m2) (x y z : ℚ) :
    (∃ r : ℚ, s.GetValue x y z = .ok r ∧
      min (m0 x y z) (m1 x y z) ≤ r ∧ r ≤ max (m0 x y z) (m1 x y z)) ∧
    (0 < s.m_edgeFalloff → s.m_lowerBound - s.m_edgeFalloff ≤ m2 x y z →
      m2 x y z < s.m_lowerBound + s.m_edgeFalloff →
      0 ≤ SCurve3 ((m2 x y z - (s.m_lowerBound - s.m_edgeFalloff)) /
          ((s.m_lowerBound + s.m_edgeFalloff) - (s.m_lowerBound - s.m_edgeFalloff))) ∧
        SCurve3 ((m2 x y z - (s.m_lowerBound - s.m_edgeFalloff)) /
          ((s.m_lowerBound + s.m_edgeFalloff) - (s.m_lowerBound - s.m_edgeFalloff))) ≤ 1) ∧
    (0 < s.m_edgeFalloff → s.m_upperBound - s.m_edgeFalloff ≤ m2 x y z →
      m2 x y z < s.m_upperBound + s.m_edgeFalloff →
      0 ≤ SCurve3 ((m2 x y z - (s.m_upperBound - s.m_edgeFalloff)) /
          ((s.m_upperBound + s.m_edgeFalloff) - (s.m_upperBound - s.m_edgeFalloff))) ∧
        SCurve3 ((m2 x y z - (s.m_upperBound - s.m_edgeFalloff)) /
          ((s.m_upperBound + s.m_edgeFalloff) - (s.m_upperBound - s.m_edgeFalloff))) ≤ 1) := by
  have hband : ∀ c : ℚ, 0 < s.m_edgeFalloff → c - s.m_edgeFalloff ≤ m2 x y z →
      m2 x y z < c + s.m_edgeFalloff →
      0 ≤ SCurve3 ((m2 x y z - (c - s.m_edgeFalloff)) /
          ((c + s.m_edgeFalloff) - (c - s.m_edgeFalloff))) ∧
        SCurve3 ((m2 x y z - (c - s.m_edgeFalloff)) /
          ((c + s.m_edgeFalloff) - (c - s.m_edgeFalloff))) ≤ 1 := by
    intro c he hlo hhi
    have hp := band_position (m2 x y z) c s.m_edgeFalloff he hlo hhi
    exact SCurve3_unit _ hp.1 hp.2
  have hs0 : min (m0 x y z) (m1 x y z) ≤ m0 x y z ∧ m0 x y z ≤ max (m0 x y z) (m1 x y z) :=
    ⟨min_le_left _ _, le_max_left _ _⟩
  have hs1 : min (m0 x y z) (m1 x y z) ≤ m1 x y z ∧ m1 x y z ≤ max (m0 x y z) (m1 x y z) :=
    ⟨min_le_right _ _, le_max_right _ _⟩
  refine ⟨?_, hband s.m_lowerBound, hband s.m_upperBound⟩
  simp only [Select.GetValue, h0, h1, h2, gt_iff_lt]
  by_cases he : 0 < s.m_edgeFalloff
  · rw [if_pos he]
    by_cases c1 : m2 x y z < s.m_lowerBound - s.m_edgeFalloff
    · rw [if_pos c1]
      exact ⟨_, rfl, hs0⟩
    · rw [if_neg c1]
      by_cases c2 : m2 x y z < s.m_lowerBound + s.m_edgeFalloff
      · rw [if_pos c2]
        have hw := hband s.m_lowerBound he (not_lt.mp c1) c2
        exact ⟨_, rfl, LinearInterp_between _ _ _ hw.1 hw.2⟩
      · rw [if_neg c2]
        by_cases c3 : m2 x y z < s.m_upperBound - s.m_edgeFalloff
        · rw [if_pos c3]
          exact ⟨_, rfl, hs1⟩
        · rw [if_neg c3]
          by_cases c4 : m2 x y z < s.m_upperBound + s.m_edgeFalloff
          · rw [if_pos c4]
            have hw := hband s.m_upperBound he (not_lt.mp c3) c4
            have hb := LinearInterp_between (m1 x y z) (m0 x y z) _ hw.1 hw.2
            rw [min_comm, max_comm] at hb
            exact ⟨_, rfl, hb⟩
          · rw [if_neg c4]
            exact ⟨_, rfl, hs0⟩
  · rw [if_neg he]
    split_ifs
    · exact ⟨_, rfl, hs0⟩
    · exact ⟨_, rfl, hs1⟩

/-- Witness for C19: bounds `-1/2`, `1/2`, falloff `1/4`, sources constant `-1` and `1`,
control `5/8` (upper band): the output lies in `[-1, 1]`. -/
theorem Select.GetValue_between_sources_witness :
    ∃ r : ℚ, (Select.bound (fun _ _ _ => -1) (fun _ _ _ => 1) (fun _ _ _ => 5 / 8) (-1 / 2)
        (1 / 2) (1 / 4)).GetValue 0 0 0 = .ok r ∧ -1 ≤ r ∧ r ≤ 1 := by
  obtain ⟨r, hr, hlo, hhi⟩ := (Select.GetValue_between_sources
    (Select.bound (fun _ _ _ => -1) (fun _ _ _ => 1) (fun _ _ _ => 5 / 8) (-1 / 2)
      (1 / 2) (1 / 4)) (fun _ _ _ => -1) (fun _ _ _ => 1) (fun _ _ _ => 5 / 8) rfl rfl rfl
    0 0 0).1
  refine ⟨r, hr, ?_, ?_⟩
  · have : min (-1 : ℚ) 1 = -1 := by norm_num
    rw [this] at hlo
    exact hlo
  · have : max (-1 : ℚ) 1 = 1 := by norm_num
    rw [this] at hhi
    exact hhi

/-! ## Voronoi: scan order and ties -/

theorem Voronoi.scan_eq_self (env : Env) (seed : ℤ) (x y z : ℚ) (st : Nearest)
    (cs : List (ℤ × ℤ × ℤ))
    (h : ∀ c ∈ cs, st.minDist ≤ sqDist x y z (Voronoi.seedPos env seed c)) :
    Voronoi.scan env seed x y z st cs = st := by
  induction cs with
  | nil => rfl
  | cons c cs ih =>
    rw [Voronoi.scan_cons, Voronoi.visit_eq,
      if_neg (not_lt.mpr (h c (List.mem_cons_self c cs)))]
    exact ih (fun d hd => h d (List.mem_cons_of_mem c hd))

/-- The scan from `st` ends on the first cell, in list order, whose seed attains the least
squared distance, when some cell of the list is below `st.minDist`: the cells before it are
strictly farther, the cells after it are not nearer. -/
theorem Voronoi.scan_first_min (env : Env) (seed : ℤ) (x y z : ℚ) (cs : List (ℤ × ℤ × ℤ))
    (st : Nearest)
    (h : ∃ c ∈ cs, sqDist x y z (Voronoi.seedPos env seed c) < st.minDist) :
    ∃ (pre : List (ℤ × ℤ × ℤ)) (c : ℤ × ℤ × ℤ) (post : List (ℤ × ℤ × ℤ)),
      cs = pre ++ c :: post ∧
      Voronoi.scan env seed x y z st cs =
        ⟨sqDist x y z (Voronoi.seedPos env seed c), some (Voronoi.seedPos env seed c)⟩ ∧
      (∀ d ∈ pre, sqDist x y z (Voronoi.seedPos env seed c) <
        sqDist x y z (Voronoi.seedPos env seed d)) ∧
      (∀ d ∈ post, sqDist x y z (Voronoi.seedPos env seed c) ≤
        sqDist x y z (Voronoi.seedPos env seed d)) ∧
      sqDist x y z (Voronoi.seedPos env seed c) < st.minDist := by
  induction cs generalizing st with
  | nil =>
    obtain ⟨c, hc, _⟩ := h
    exact absurd hc (List.not_mem_nil c)
  | cons a rest ih =>
    rw [Voronoi.scan_cons, Voronoi.visit_eq]
    by_cases ha : sqDist x y z (Voronoi.seedPos env seed a) < st.minDist
    · rw [if_pos ha]
      by_cases hr : ∃ c ∈ rest, sqDist x y z (Voronoi.seedPos env seed c) <
          sqDist x y z (Voronoi.seedPos env seed a)
      · obtain ⟨pre, c, post, hsplit, hscan, hpre, hpost, hlt⟩ :=
          ih ⟨sqDist x y z (Voronoi.seedPos env seed a), some (Voronoi.seedPos env seed a)⟩ hr
        refine ⟨a :: pre, c, post, by rw [hsplit]; rfl, hscan, ?_, hpost, lt_trans hlt ha⟩
        intro d hd
        rcases List.mem_cons.mp hd with hd | hd
        · rw [hd]; exact hlt
        · exact hpre d hd
      · have hall : ∀ d ∈ rest, sqDist x y z (Voronoi.seedPos env seed a) ≤
            sqDist x y z (Voronoi.seedPos env seed d) := by
          intro d hd
          by_contra hcon
          exact hr ⟨d, hd, not_le.mp hcon⟩
        refine ⟨[], a, rest, rfl, ?_, ?_, hall, ha⟩
        · exact Voronoi.scan_eq_self env seed x y z _ rest hall
        · intro d hd
          exact absurd hd (List.not_mem_nil d)
    · rw [if_neg ha]
      have hr : ∃ c ∈ rest, sqDist x y z (Voronoi.seedPos env seed c) < st.minDist := by
        obtain ⟨c, hc, hlt⟩ := h
        rcases List.mem_cons.mp hc with hc | hc
        · rw [hc] at hlt; exact absurd hlt ha
        · exact ⟨c, hc, hlt⟩
      obtain ⟨pre, c, post, hsplit, hscan, hpre, hpost, hlt⟩ := ih st hr
      refine ⟨a :: pre, c, post, by rw [hsplit]; rfl, hscan, ?_, hpost, hlt⟩
      intro d hd
      rcases List.mem_cons.mp hd with hd | hd
      · rw [hd]; exact lt_of_lt_of_le hlt (not_lt.mp ha)
      · exact hpre d hd

theorem Voronoi.seedPos_of_seedInRange (env : Env) (seed : ℤ) (hs : Voronoi.SeedInRange seed)
    (c : ℤ × ℤ × ℤ) :
    Voronoi.seedPos env seed c =
      ((c.1 : ℚ) + env.ValueNoise3D c.1 c.2.1 c.2.2 seed,
       (c.2.1 : ℚ) + env.ValueNoise3D c.1 c.2.1 c.2.2 (seed + 1),
       (c.2.2 : ℚ) + env.ValueNoise3D c.1 c.2.1 c.2.2 (seed + 2)) := by
  obtain ⟨h1, h2⟩ := hs
  simp only [Voronoi.seedPos, wrapInt_of_range (seed + 1) (by omega) (by omega),
    wrapInt_of_range (seed + 2) (by omega) (by omega)]

/-- C17, counterexample.  With the hash `seedOnlyHash` (values in `[-1, 1]`), seed `1` and
frequency `1`, at the point `(3000000000, 0, 0)` the loop visits no cell: the search ends
with the sentinel `2147483647` and no winner, although each of the 125 seeds around the
floor cell of the point is at squared distance below `48`. -/
theorem Voronoi.nearestSeed_scans_nothing_far :
    (Env.ofHash seedOnlyHash).HashIn (-1) 1 ∧
    Voronoi.nearestSeed (Env.ofHash seedOnlyHash) 1 2 (3000000000 * 1) (0 * 1) (0 * 1) =
      some ⟨2147483647, none⟩ ∧
    (Voronoi.cells 2 ((3000000000 : ℚ) * 1) (0 * 1) (0 * 1)).length = 125 ∧
    ∀ c ∈ Voronoi.cells 2 ((3000000000 : ℚ) * 1) (0 * 1) (0 * 1),
      sqDist (3000000000 * 1) (0 * 1) (0 * 1) (Voronoi.seedPos (Env.ofHash seedOnlyHash) 1 c)
        < 48 :=
  ⟨seedOnlyHash_in, Voronoi.nearestSeed_far _ 1, Voronoi.cells_length _ _ _,
    fun c hc => Voronoi.sqDist_lt_of_mem_cells _ 1 _ _ _ seedOnlyHash_in c hc⟩

/-- C17, amended.  For a hash with values in `[-1, 1]`, every configuration, and every sample
point whose scaled coordinates `(X, Y, Z)` have their floor at least `3` inside the `int`
range: the loop is the scan of the 125 cells at offsets `-2 .. +2` per axis around the floor
cell, `z` outermost, then `y`, then `x` innermost, each ascending; each cell has the seed
`cell + (hash (cell, s), hash (cell, s + 1), hash (cell, s + 2))`, the sums `s + 1` and
`s + 2` being `int` sums, which are the exact sums when `INT_MIN ≤ s ≤ INT_MAX - 2`; the
search ends with the least squared distance over these seeds, recorded for the first cell in
scan order that attains it (earlier cells are strictly farther, later cells are not
nearer). -/
theorem Voronoi.nearestSeed_scan_order (env : Env) (v : Voronoi) (x y z : ℚ)
    (hh : env.HashIn (-1) 1)
    (hp : Voronoi.PointInRange 3 (x * v.m_frequency) (y * v.m_frequency) (z * v.m_frequency)) :
    (Voronoi.cells 2 (x * v.m_frequency) (y * v.m_frequency) (z * v.m_frequency)).length
      = 125 ∧
    (∀ c : ℤ × ℤ × ℤ,
      c ∈ Voronoi.cells 2 (x * v.m_frequency) (y * v.m_frequency) (z * v.m_frequency) ↔
        (⌊x * v.m_frequency⌋ - 2 ≤ c.1 ∧ c.1 ≤ ⌊x * v.m_frequency⌋ + 2) ∧
        (⌊y * v.m_frequency⌋ - 2 ≤ c.2.1 ∧ c.2.1 ≤ ⌊y * v.m_frequency⌋ + 2) ∧
        (⌊z * v.m_frequency⌋ - 2 ≤ c.2.2 ∧ c.2.2 ≤ ⌊z * v.m_frequency⌋ + 2)) ∧
    Voronoi.cells 2 (x * v.m_frequency) (y * v.m_frequency) (z * v.m_frequency) =
      ([⌊z * v.m_frequency⌋ - 2, ⌊z * v.m_frequency⌋ - 1, ⌊z * v.m_frequency⌋,
        ⌊z * v.m_frequency⌋ + 1, ⌊z * v.m_frequency⌋ + 2].flatMap fun zCur =>
        [⌊y * v.m_frequency⌋ - 2, ⌊y * v.m_frequency⌋ - 1, ⌊y * v.m_frequency⌋,
          ⌊y * v.m_frequency⌋ + 1, ⌊y * v.m_frequency⌋ + 2].flatMap fun yCur =>
          [⌊x * v.m_frequency⌋ - 2, ⌊x * v.m_frequency⌋ - 1, ⌊x * v.m_frequency⌋,
            ⌊x * v.m_frequency⌋ + 1, ⌊x * v.m_frequency⌋ + 2].map fun xCur =>
            (xCur, yCur, zCur)) ∧
    Voronoi.nearestSeed env v.m_seed 2 (x * v.m_frequency) (y * v.m_frequency)
        (z * v.m_frequency) =
      some ((Voronoi.cells 2 (x * v.m_frequency) (y * v.m_frequency) (z * v.m_frequency)).foldl
        (fun st c => Voronoi.visit env v.m_seed (x * v.m_frequency) (y * v.m_frequency)
          (z * v.m_frequency) st c.1 c.2.1 c.2.2) ⟨2147483647, none⟩) ∧
    (∀ c : ℤ × ℤ × ℤ,
      Voronoi.seedPos env v.m_seed c =
        ((c.1 : ℚ) + env.ValueNoise3D c.1 c.2.1 c.2.2 v.m_seed,
         (c.2.1 : ℚ) + env.ValueNoise3D c.1 c.2.1 c.2.2 (wrapInt (v.m_seed + 1)),
         (c.2.2 : ℚ) + env.ValueNoise3D c.1 c.2.1 c.2.2 (wrapInt (v.m_seed + 2)))) ∧
    (Voronoi.SeedInRange v.m_seed → ∀ c : ℤ × ℤ × ℤ,
      Voronoi.seedPos env v.m_seed c =
        ((c.1 : ℚ) + env.ValueNoise3D c.1 c.2.1 c.2.2 v.m_seed,
         (c.2.1 : ℚ) + env.ValueNoise3D c.1 c.2.1 c.2.2 (v.m_seed + 1),
         (c.2.2 : ℚ) + env.ValueNoise3D c.1 c.2.1 c.2.2 (v.m_seed + 2))) ∧
    ∃ (pre : List (ℤ × ℤ × ℤ)) (c : ℤ × ℤ × ℤ) (post : List (ℤ × ℤ × ℤ)),
      Voronoi.cells 2 (x * v.m_frequency) (y * v.m_frequency) (z * v.m_frequency)
        = pre ++ c :: post ∧
      Voronoi.nearestSeed env v.m_seed 2 (x * v.m_frequency) (y * v.m_frequency)
          (z * v.m_frequency) =
        some ⟨sqDist (x * v.m_frequency) (y * v.m_frequency) (z * v.m_frequency)
            (Voronoi.seedPos env v.m_seed c), some (Voronoi.seedPos env v.m_seed c)⟩ ∧
      (∀ d ∈ pre,
        sqDist (x * v.m_frequency) (y * v.m_frequency) (z * v.m_frequency)
            (Voronoi.seedPos env v.m_seed c) <
          sqDist (x * v.m_frequency) (y * v.m_frequency) (z * v.m_frequency)
            (Voronoi.seedPos env v.m_seed d)) ∧
      (∀ d ∈ post,
        sqDist (x * v.m_frequency) (y * v.m_frequency) (z * v.m_frequency)
            (Voronoi.seedPos env v.m_seed c) ≤
          sqDist (x * v.m_frequency) (y * v.m_frequency) (z * v.m_frequency)
            (Voronoi.seedPos env v.m_seed d)) := by
  have hns := Voronoi.nearestSeed_eq_blockScan env v.m_seed 2 (x * v.m_frequency)
    (y * v.m_frequency) (z * v.m_frequency) (by norm_num) hp
  refine ⟨Voronoi.cells_length _ _ _, fun c => mem_cells 2 _ _ _ c, ?_, ?_, fun _ => rfl,
    fun hs c => Voronoi.seedPos_of_seedInRange env v.m_seed hs c, ?_⟩
  · simp only [Voronoi.cells, forRange_five]
  · rw [hns]
    rfl
  · have hmem := Voronoi.floorCell_mem_cells 2 (by norm_num) (x * v.m_frequency)
      (y * v.m_frequency) (z * v.m_frequency)
    have hlt := Voronoi.sqDist_lt_of_mem_cells env v.m_seed _ _ _ hh _ hmem
    obtain ⟨pre, c, post, hsplit, hscan, hpre, hpost, _⟩ :=
      Voronoi.scan_first_min env v.m_seed (x * v.m_frequency) (y * v.m_frequency)
        (z * v.m_frequency)
        (Voronoi.cells 2 (x * v.m_frequency) (y * v.m_frequency) (z * v.m_frequency))
        ⟨2147483647, none⟩ ⟨_, hmem, by
          show sqDist _ _ _ _ < (2147483647 : ℚ)
          linarith⟩
    refine ⟨pre, c, post, hsplit, ?_, hpre, hpost⟩
    rw [hns, Voronoi.blockScan_eq_scan, hscan]

/-- Witness for C17 (amended): with the hash `seedOnlyHash` (values in `[-1, 1]`), seed `1`,
frequency `1`, at the origin (inside the `int` range) the search ends on a first minimum of
the 125 cells. -/
theorem Voronoi.nearestSeed_scan_order_witness :
    (Env.ofHash seedOnlyHash).HashIn (-1) 1 ∧
    Voronoi.PointInRange 3 ((0 : ℚ) * 1) (0 * 1) (0 * 1) ∧
    ∃ (pre : List (ℤ × ℤ × ℤ)) (c : ℤ × ℤ × ℤ) (post : List (ℤ × ℤ × ℤ)),
      Voronoi.cells 2 ((0 : ℚ) * 1) (0 * 1) (0 * 1) = pre ++ c :: post ∧
      Voronoi.nearestSeed (Env.ofHash seedOnlyHash) 1 2 ((0 : ℚ) * 1) (0 * 1) (0 * 1) =
        some ⟨sqDist ((0 : ℚ) * 1) (0 * 1) (0 * 1)
            (Voronoi.seedPos (Env.ofHash seedOnlyHash) 1 c),
          some (Voronoi.seedPos (Env.ofHash seedOnlyHash) 1 c)⟩ ∧
      ∀ d ∈ pre,
        sqDist ((0 : ℚ) * 1) (0 * 1) (0 * 1) (Voronoi.seedPos (Env.ofHash seedOnlyHash) 1 c) <
          sqDist ((0 : ℚ) * 1) (0 * 1) (0 * 1)
            (Voronoi.seedPos (Env.ofHash seedOnlyHash) 1 d) := by
  have hp := pointInRange_origin 3 (by norm_num) (by norm_num)
  refine ⟨seedOnlyHash_in, hp, ?_⟩
  obtain ⟨pre, c, post, hsplit, hscan, hpre, _⟩ :=
    (Voronoi.nearestSeed_scan_order (Env.ofHash seedOnlyHash) ⟨1, 1, 1, false⟩ 0 0 0
      seedOnlyHash_in hp).2.2.2.2.2.2
  exact ⟨pre, c, post, hsplit, hscan, hpre⟩

/-! ## Voronoi: the sentinel -/

theorem axis_offset_lt_four (a f : ℤ) (h p : ℚ) (ha1 : f - 2 ≤ a) (ha2 : a ≤ f + 2)
    (h1 : -1 ≤ h) (h2 : h ≤ 1) (hp1 : (f : ℚ) ≤ p) (hp2 : p < (f : ℚ) + 1) :
    |(a : ℚ) + h - p| < 4 := by
  have ha1q : (f : ℚ) - 2 ≤ (a : ℚ) := by exact_mod_cast ha1
  have ha2q : (a : ℚ) ≤ (f : ℚ) + 2 := by exact_mod_cast ha2
  rw [abs_lt]
  constructor <;> linarith

theorem Voronoi.cells_head (x y z : ℚ) :
    ∃ tail : List (ℤ × ℤ × ℤ),
      Voronoi.cells 2 x y z = (⌊x⌋ - 2, ⌊y⌋ - 2, ⌊z⌋ - 2) :: tail := by
  simp only [Voronoi.cells, forRange_five, List.flatMap_cons, List.map_cons, List.cons_append]
  exact ⟨_, rfl⟩

/-- C20, counterexample.  With the hash `leaveCellHash` (values in `[-1, 1]`), seed `0` and
frequency `1`, at the point `(3000000000, 0, 0)` no scanned cell replaces the sentinel: the
search ends with the candidate position unset, and `GetValue`, which reads it, returns no
value. -/
theorem Voronoi.candidate_unset_far :
    (Env.ofHash leaveCellHash).HashIn (-1) 1 ∧
    (∃ st : Nearest,
      Voronoi.nearestSeed (Env.ofHash leaveCellHash) 0 2 (3000000000 * 1) (0 * 1) (0 * 1)
        = some st ∧ st.minDist = 2147483647 ∧ st.candidate = none) ∧
    Voronoi.GetValue (Env.ofHash leaveCellHash) ⟨1, 1, 0, false⟩ 3000000000 0 0 = none :=
  ⟨leaveCellHash_in, ⟨_, Voronoi.nearestSeed_far _ 0, rfl, rfl⟩,
    Voronoi.GetValue_far _ 1 0 false⟩

/-- C20, amended.  For a hash with values in `[-1, 1]`, every configuration, and every sample
point whose scaled coordinates `(X, Y, Z)` have their floor at least `3` inside the `int`
range: each of the 125 scanned seeds is within `4` of the point on every axis, so at squared
distance below `48`, below the sentinel `2147483647`; the first scanned cell,
`(floor X - 2, floor Y - 2, floor Z - 2)`, replaces the sentinel; the search returns with
the candidate position assigned to the seed of a scanned cell, and `GetValue` returns a
value. -/
theorem Voronoi.winner_always_recorded (env : Env) (v : Voronoi) (x y z : ℚ)
    (hh : env.HashIn (-1) 1)
    (hp : Voronoi.PointInRange 3 (x * v.m_frequency) (y * v.m_frequency) (z * v.m_frequency)) :
    (∀ c ∈ Voronoi.cells 2 (x * v.m_frequency) (y * v.m_frequency) (z * v.m_frequency),
      |(Voronoi.seedPos env v.m_seed c).1 - x * v.m_frequency| < 4 ∧
      |(Voronoi.seedPos env v.m_seed c).2.1 - y * v.m_frequency| < 4 ∧
      |(Voronoi.seedPos env v.m_seed c).2.2 - z * v.m_frequency| < 4 ∧
      sqDist (x * v.m_frequency) (y * v.m_frequency) (z * v.m_frequency)
        (Voronoi.seedPos env v.m_seed c) < 48 ∧
      sqDist (x * v.m_frequency) (y * v.m_frequency) (z * v.m_frequency)
        (Voronoi.seedPos env v.m_seed c) < 2147483647) ∧
    (∃ tail : List (ℤ × ℤ × ℤ),
      Voronoi.cells 2 (x * v.m_frequency) (y * v.m_frequency) (z * v.m_frequency) =
        (⌊x * v.m_frequency⌋ - 2, ⌊y * v.m_frequency⌋ - 2, ⌊z * v.m_frequency⌋ - 2) :: tail) ∧
    (Voronoi.visit env v.m_seed (x * v.m_frequency) (y * v.m_frequency) (z * v.m_frequency)
        ⟨2147483647, none⟩ (⌊x * v.m_frequency⌋ - 2) (⌊y * v.m_frequency⌋ - 2)
        (⌊z * v.m_frequency⌋ - 2)).candidate =
      some (Voronoi.seedPos env v.m_seed
        (⌊x * v.m_frequency⌋ - 2, ⌊y * v.m_frequency⌋ - 2, ⌊z * v.m_frequency⌋ - 2)) ∧
    (∃ c ∈ Voronoi.cells 2 (x * v.m_frequency) (y * v.m_frequency) (z * v.m_frequency),
      ∃ st : Nearest,
        Voronoi.nearestSeed env v.m_seed 2 (x * v.m_frequency) (y * v.m_frequency)
          (z * v.m_frequency) = some st ∧
        st.candidate = some (Voronoi.seedPos env v.m_seed c)) ∧
    (∃ r : ℚ, Voronoi.GetValue env v x y z = some r) := by
  have hbound : ∀ c ∈ Voronoi.cells 2 (x * v.m_frequency) (y * v.m_frequency)
      (z * v.m_frequency),
      sqDist (x * v.m_frequency) (y * v.m_frequency) (z * v.m_frequency)
        (Voronoi.seedPos env v.m_seed c) < 48 :=
    fun c hc => Voronoi.sqDist_lt_of_mem_cells env v.m_seed _ _ _ hh c hc
  obtain ⟨tail, htail⟩ := Voronoi.cells_head (x * v.m_frequency) (y * v.m_frequency)
    (z * v.m_frequency)
  obtain ⟨w, hw, hn, _, hv⟩ := Voronoi.GetValue_in_range env v x y z hh hp
  refine ⟨?_, ⟨tail, htail⟩, ?_, ⟨w, hw, _, hn, rfl⟩, ⟨_, hv⟩⟩
  · intro c hc
    obtain ⟨⟨hx1, hx2⟩, ⟨hy1, hy2⟩, ⟨hz1, hz2⟩⟩ := (mem_cells 2 _ _ _ c).mp hc
    have hX := hh c.1 c.2.1 c.2.2 v.m_seed
    have hY := hh c.1 c.2.1 c.2.2 (wrapInt (v.m_seed + 1))
    have hZ := hh c.1 c.2.1 c.2.2 (wrapInt (v.m_seed + 2))
    have hb := hbound c hc
    refine ⟨?_, ?_, ?_, hb, by linarith⟩
    · exact axis_offset_lt_four _ _ _ _ hx1 hx2 hX.1 hX.2 (Int.floor_le _)
        (Int.lt_floor_add_one _)
    · exact axis_offset_lt_four _ _ _ _ hy1 hy2 hY.1 hY.2 (Int.floor_le _)
        (Int.lt_floor_add_one _)
    · exact axis_offset_lt_four _ _ _ _ hz1 hz2 hZ.1 hZ.2 (Int.floor_le _)
        (Int.lt_floor_add_one _)
  · have hfirst : (⌊x * v.m_frequency⌋ - 2, ⌊y * v.m_frequency⌋ - 2, ⌊z * v.m_frequency⌋ - 2) ∈
        Voronoi.cells 2 (x * v.m_frequency) (y * v.m_frequency) (z * v.m_frequency) := by
      rw [htail]
      exact List.mem_cons_self _ _
    have hb := hbound _ hfirst
    have hvis := Voronoi.visit_eq env v.m_seed (x * v.m_frequency) (y * v.m_frequency)
      (z * v.m_frequency) ⟨2147483647, none⟩
      (⌊x * v.m_frequency⌋ - 2, ⌊y * v.m_frequency⌋ - 2, ⌊z * v.m_frequency⌋ - 2)
    simp only at hvis
    rw [hvis, if_pos (by
      show sqDist _ _ _ _ < (2147483647 : ℚ)
      linarith)]

/-- Witness for C20 (amended): the hash `pushOutHash` has its values in `[-1, 1]` and the
point `(1/2, 1/2, 1/2)` is inside the `int` range; with seed `0` and frequency `1` the module
returns a value there. -/
theorem Voronoi.winner_always_recorded_witness :
    (Env.ofHash pushOutHash).HashIn (-1) 1 ∧
    ∃ r : ℚ, Voronoi.GetValue (Env.ofHash pushOutHash) ⟨1, 1, 0, true⟩ (1 / 2) (1 / 2) (1 / 2)
      = some r := by
  have hp : Voronoi.PointInRange 3 ((1 / 2 : ℚ) * (⟨1, 1, 0, true⟩ : Voronoi).m_frequency)
      ((1 / 2 : ℚ) * (⟨1, 1, 0, true⟩ : Voronoi).m_frequency)
      ((1 / 2 : ℚ) * (⟨1, 1, 0, true⟩ : Voronoi).m_frequency) := by
    simp only [mul_one]
    exact pointInRange_half 3 (by norm_num) (by norm_num)
  exact ⟨pushOutHash_in,
    (Voronoi.winner_always_recorded (Env.ofHash pushOutHash) ⟨1, 1, 0, true⟩ (1 / 2) (1 / 2)
      (1 / 2) pushOutHash_in hp).2.2.2.2⟩

end module
end noise
